import Mathlib

/-!
# Verification of the timed resource-boost coordinator

Shallow embedding of the two boost drivers of this repository
(`drivers/cpufreq/cpu_boost.c` and `drivers/soc/qcom/dcvs/dcvs_boost.c`),
of the older single-kind variant of the cpufreq booster (`cpu_boost_all`),
and of the kprofiles profile-mode module, together with proofs about the
boost-window merge, the pending-set drain, the reconciler passes, the
lifecycle callback and the profile-mode setter.

Machine integers are modelled as `Nat` with explicit reduction modulo
`2 ^ 64` where the kernel's wrap-around comparison `time_after` makes the
width observable.  The concurrent kernel code is embedded as a sequential
transition system: every critical section of the source (a request call,
one reconciler pass, one notifier callback) becomes one atomic step, which
matches the lock discipline of the source (all shared state is touched
under `pending_lock`, the worker serialization, or the cmpxchg loop).
-/

/-! ## Time model: jiffies arithmetic from `include/linux/jiffies.h` -/

/-- Kernel `time_after(a, b)`: true iff `a` is strictly after `b`,
computed as the signed interpretation of the unsigned difference
`b - a` being negative, i.e. `(b - a) mod 2^64 >= 2^63`. -/
def time_after (a b : Nat) : Bool :=
  decide (2 ^ 63 ≤ (b + 2 ^ 64 - a % 2 ^ 64) % 2 ^ 64)

/-- Kernel `msecs_to_jiffies` for a tick rate `HZ` dividing 1000:
`(m + (1000/HZ) - 1) / (1000/HZ)` (round up to whole ticks). -/
def msecs_to_jiffies (HZ m : Nat) : Nat :=
  (m + (1000 / HZ - 1)) / (1000 / HZ)

/-- `boost_window_expired(now, exp)`, identical in both boost drivers:
the window is expired iff `now` is strictly after `exp`. -/
def boost_window_expired (now exp : Nat) : Bool :=
  time_after now exp

/-- The deadline value stored after one run of the cmpxchg merge loop of
the request calls: keep the old deadline if it is strictly after the
candidate, else store the candidate. -/
def mergeExpires (cand old : Nat) : Nat :=
  if time_after old cand then old else cand

/-- The calls emitted by folding a step function `g` with an emission
function `h` over a list, starting from state `s`: the generic shape of
every loop of the two drivers that both mutates driver state and issues
external-API calls. -/
def emits {σ α β : Type} (g : σ → α → σ) (h : σ → α → List β) :
    σ → List α → List β
  | _, [] => []
  | s, c :: t => h s c ++ emits g h (g s c) t

/-! ## The cpufreq boost driver (`drivers/cpufreq/cpu_boost.c`)

Domains are CPU indices; a leader is a CPU `c` whose cpufreq policy has
`policy->cpu = c`.  The two boost kinds are "max" and "kick".  The bitmaps
of the source become `Finset Nat`; every call into the freq_qos constraint
API is recorded as a `QosCall` event. -/

namespace CB

/-- A cpufreq policy as seen by the driver: its leader CPU
(`policy->cpu`) and `policy->cpuinfo.max_freq` in kHz. -/
structure Policy where
  cpu : Nat
  maxFreq : Int
deriving DecidableEq

/-- The environment the driver reads: `NR_CPUS`, the list of online CPUs
in iteration order, and `cpufreq_cpu_get`. -/
structure Env where
  nrCpus : Nat
  online : List Nat
  pol : Nat → Option Policy

/-- The `CONFIG_CPU_BOOST_KICK_KHZ_*` presets (`s32`, so `Int`). -/
structure KickCfg where
  little : Int
  mid : Int
  big : Int
  prime : Int

/-- `kick_khz_for_cpu`: tiered preset by CPU position. -/
def kick_khz_for_cpu (k : KickCfg) (cpu : Nat) : Int :=
  if cpu ≤ 1 then k.little
  else if cpu ≤ 4 then k.mid
  else if cpu ≤ 6 then k.big
  else k.prime

/-- One call into the freq_qos constraint API, with the CPU it targets,
the requested value, and for an add whether it succeeded. -/
inductive QosCall where
  | addMax (cpu : Nat) (val : Int) (ok : Bool)
  | updMax (cpu : Nat) (val : Int)
  | remMax (cpu : Nat)
  | addKick (cpu : Nat) (val : Int) (ok : Bool)
  | updKick (cpu : Nat) (val : Int)
  | remKick (cpu : Nat)
deriving DecidableEq

/-- The CPU a constraint-API call references (the request array index). -/
def QosCall.cpu : QosCall → Nat
  | .addMax c _ _ => c
  | .updMax c _ => c
  | .remMax c => c
  | .addKick c _ _ => c
  | .updKick c _ => c
  | .remKick c => c

/-- Driver state: the boost deadline, the two pending bitmaps and the two
active bitmaps of the source. -/
structure State where
  expires : Nat
  pending_max : Finset Nat
  pending_kick : Finset Nat
  active_max : Finset Nat
  active_kick : Finset Nat
deriving DecidableEq

/-- Module-init state: all bitmaps clear, deadline 0. -/
def initState : State :=
  { expires := 0, pending_max := ∅, pending_kick := ∅,
    active_max := ∅, active_kick := ∅ }

/-- The "max"-kind body of the apply loop at an online leader `c`
(`cpu_boost.c:85-97`): when `c` is drained-pending, add a `FREQ_QOS_MIN`
request at `cpuinfo.max_freq` if not yet active (marking active on
success), else update the existing request in place.  `okM c` is the
success of `freq_qos_add_request`. -/
def stepMax (okM : Nat → Bool) (p : Policy) (c : Nat)
    (enM : Finset Nat) (s : State) : State × List QosCall :=
  if c ∈ enM then
    if c ∉ s.active_max then
      if okM c then
        ({ s with active_max := insert c s.active_max },
         [.addMax c p.maxFreq true])
      else (s, [.addMax c p.maxFreq false])
    else (s, [.updMax c p.maxFreq])
  else (s, [])

/-- The "kick"-kind body of the apply loop at an online leader `c`
(`cpu_boost.c:99-116`): the tier preset, filtered when nonpositive,
clamped to `cpuinfo.max_freq`, then add-or-update as for "max". -/
def stepKick (k : KickCfg) (okK : Nat → Bool) (p : Policy) (c : Nat)
    (enK : Finset Nat) (s : State) : State × List QosCall :=
  if c ∈ enK then
    if 0 < kick_khz_for_cpu k c then
      if c ∉ s.active_kick then
        if okK c then
          ({ s with active_kick := insert c s.active_kick },
           [.addKick c (min (kick_khz_for_cpu k c) p.maxFreq) true])
        else (s, [.addKick c (min (kick_khz_for_cpu k c) p.maxFreq) false])
      else (s, [.updKick c (min (kick_khz_for_cpu k c) p.maxFreq)])
    else (s, [])
  else (s, [])

/-- One iteration of the apply loop (`cpu_boost.c:78-119`): skip CPUs
without a policy and CPUs that are not their policy's leader. -/
def applyOne (env : Env) (k : KickCfg) (okM okK : Nat → Bool)
    (enM enK : Finset Nat) (acc : State × List QosCall) (c : Nat) :
    State × List QosCall :=
  match env.pol c with
  | none => acc
  | some p =>
    if p.cpu = c then
      let r1 := stepMax okM p c enM acc.1
      let r2 := stepKick k okK p c enK r1.1
      (r2.1, acc.2 ++ r1.2 ++ r2.2)
    else acc

/-- The whole apply loop over the online CPUs. -/
def applyPass (env : Env) (k : KickCfg) (okM okK : Nat → Bool)
    (enM enK : Finset Nat) (s : State) : State × List QosCall :=
  env.online.foldl (applyOne env k okM okK enM enK) (s, [])

/-- One iteration of the teardown loop (`cpu_boost.c:130-144`):
`test_and_clear_bit` then `freq_qos_remove_request`, per kind. -/
def teardownOne (env : Env) (acc : State × List QosCall) (c : Nat) :
    State × List QosCall :=
  match env.pol c with
  | none => acc
  | some p =>
    if p.cpu = c then
      let s := acc.1
      let r1 : State × List QosCall :=
        if c ∈ s.active_max then
          ({ s with active_max := s.active_max.erase c }, [.remMax c])
        else (s, [])
      let r2 : State × List QosCall :=
        if c ∈ r1.1.active_kick then
          ({ r1.1 with active_kick := r1.1.active_kick.erase c }, [.remKick c])
        else (r1.1, [])
      (r2.1, acc.2 ++ r1.2 ++ r2.2)
    else acc

/-- The whole teardown loop over the online CPUs. -/
def teardownPass (env : Env) (s : State) : State × List QosCall :=
  env.online.foldl (teardownOne env) (s, [])

/-- The drain of the two pending sets (`cpu_boost.c:66-75`): snapshot and
clear both under one `pending_lock` section. -/
def drain (s : State) : (Finset Nat × Finset Nat) × State :=
  ((s.pending_max, s.pending_kick),
   { s with pending_max := ∅, pending_kick := ∅ })

/-- The reschedule delay computed by the worker when the window is not
expired (`cpu_boost.c:124`). -/
def remainingDelay (now exp : Nat) : Nat :=
  if time_after exp now then exp - now else 0

/-- One full reconciler pass (`cpu_boost_worker`): drain, apply pending
activations, re-read the clock, and either reschedule (returning
`some delay`) or tear everything down (returning `none`). -/
def cpu_boost_worker (env : Env) (k : KickCfg) (okM okK : Nat → Bool)
    (now : Nat) (s : State) : State × List QosCall × Option Nat :=
  let d := drain s
  let a := applyPass env k okM okK d.1.1 d.1.2 d.2
  if time_after now a.1.expires then
    let t := teardownPass env a.1
    (t.1, a.2 ++ t.2, none)
  else
    (a.1, a.2, some (remainingDelay now a.1.expires))

/-- `cpu_boost_max(duration_ms)`: cmpxchg max-merge of the deadline,
schedule the worker with zero delay, fill the max pending bitmap. -/
def cpu_boost_max (env : Env) (HZ now d : Nat) (s : State) :
    State × Option Nat :=
  let cand := (now + msecs_to_jiffies HZ d) % 2 ^ 64
  ({ s with expires := mergeExpires cand s.expires,
            pending_max := Finset.range env.nrCpus },
   some 0)

/-- `cpu_boost_kick(duration_ms)`: like `cpu_boost_max` but fills the
kick pending bitmap. -/
def cpu_boost_kick (env : Env) (HZ now d : Nat) (s : State) :
    State × Option Nat :=
  let cand := (now + msecs_to_jiffies HZ d) % 2 ^ 64
  ({ s with expires := mergeExpires cand s.expires,
            pending_kick := Finset.range env.nrCpus },
   some 0)

/-- The `CPUFREQ_REMOVE_POLICY` branch of `boost_policy_notifier`
(`cpu_boost.c:198-212`) for a policy whose leader is `leader`:
`test_and_clear` plus remove per kind, then clear the pending bits. -/
def boost_policy_notifier (leader : Nat) (s : State) :
    State × List QosCall :=
  let r1 : State × List QosCall :=
    if leader ∈ s.active_max then
      ({ s with active_max := s.active_max.erase leader }, [.remMax leader])
    else (s, [])
  let r2 : State × List QosCall :=
    if leader ∈ r1.1.active_kick then
      ({ r1.1 with active_kick := r1.1.active_kick.erase leader },
       [.remKick leader])
    else (r1.1, [])
  ({ r2.1 with pending_max := r2.1.pending_max.erase leader,
               pending_kick := r2.1.pending_kick.erase leader },
   r1.2 ++ r2.2)

/-- Environment with no CPUs governed. -/
def envEmpty (n : Nat) : Env :=
  { nrCpus := n, online := [], pol := fun _ => none }

/-- Environment change: a new cpufreq policy with leader `L` and max
frequency `f` covering `members` comes up (`CPUFREQ_CREATE_POLICY`);
its member CPUs go online. -/
def envAddDom (env : Env) (L : Nat) (f : Int) (members : List Nat) : Env :=
  { env with online := env.online ++ members,
             pol := fun c => if c ∈ members then some ⟨L, f⟩ else env.pol c }

/-- Environment change: the policy whose leader is `L` is removed
(`CPUFREQ_REMOVE_POLICY`); every CPU it governed loses its policy. -/
def envRemove (env : Env) (L : Nat) : Env :=
  { env with pol := fun c =>
      match env.pol c with
      | some p => if p.cpu = L then none else some p
      | none => none }

/-- The states reachable by the cpu_boost driver from module init,
together with the trace of constraint-API calls issued so far.  Each
constructor is one atomic step of the source: a request call, one worker
pass, a policy-creation event, or a policy-removal event (which runs the
notifier synchronously). -/
inductive Reachable (k : KickCfg) (HZ : Nat) :
    Env → State → List QosCall → Prop where
  | init (n : Nat) : Reachable k HZ (envEmpty n) initState []
  | boostMax (env s tr now d) (h : Reachable k HZ env s tr) :
      Reachable k HZ env (cpu_boost_max env HZ now d s).1 tr
  | boostKick (env s tr now d) (h : Reachable k HZ env s tr) :
      Reachable k HZ env (cpu_boost_kick env HZ now d s).1 tr
  | worker (env s tr okM okK now) (h : Reachable k HZ env s tr) :
      Reachable k HZ env (cpu_boost_worker env k okM okK now s).1
        (tr ++ (cpu_boost_worker env k okM okK now s).2.1)
  | addDom (env s tr L f members) (h : Reachable k HZ env s tr)
      (hmem : L ∈ members) (hnd : members.Nodup)
      (hfresh : ∀ c ∈ members, env.pol c = none ∧ c ∉ env.online) :
      Reachable k HZ (envAddDom env L f members) s tr
  | removeDom (env s tr L p) (h : Reachable k HZ env s tr)
      (hp : env.pol L = some p) (hLp : p.cpu = L) :
      Reachable k HZ (envRemove env L)
        (boost_policy_notifier L s).1
        (tr ++ (boost_policy_notifier L s).2)

end CB

/-! ## The older single-kind cpufreq boost variant (`cpu_boost_all`)

This variant keeps one request array and one active bitmap, and applies
the constraint requests synchronously inside the request call itself; its
worker only handles expiry teardown. -/

namespace CBA

/-- A freq_qos call of the single-kind variant. -/
inductive Call where
  | add (cpu : Nat) (val : Int) (ok : Bool)
  | upd (cpu : Nat) (val : Int)
  | rem (cpu : Nat)
deriving DecidableEq

/-- Driver state of the variant: deadline plus the single active bitmap
(`boost_req_active`).  There is no pending set. -/
structure State where
  expires : Nat
  active : Finset Nat
deriving DecidableEq

def initState : State := { expires := 0, active := ∅ }

/-- One iteration of the apply loop inside `cpu_boost_all`
(lines 84-106 of the variant): `test_and_set_bit` then add (clearing the
bit again on failure), or update when already set. -/
def applyOne (env : CB.Env) (okA : Nat → Bool)
    (acc : State × List Call) (c : Nat) : State × List Call :=
  match env.pol c with
  | none => acc
  | some p =>
    if p.cpu = c then
      let s := acc.1
      if c ∉ s.active then
        if okA c then
          ({ s with active := insert c s.active },
           acc.2 ++ [.add c p.maxFreq true])
        else (s, acc.2 ++ [.add c p.maxFreq false])
      else (s, acc.2 ++ [.upd c p.maxFreq])
    else acc

/-- `cpu_boost_all(duration_ms)`: merge the deadline, reschedule the
worker for the remaining delay, then synchronously add or update a
max-frequency floor on every online leader. -/
def cpu_boost_all (env : CB.Env) (HZ : Nat) (okA : Nat → Bool)
    (now d : Nat) (s : State) : State × List Call × Option Nat :=
  let cand := (now + msecs_to_jiffies HZ d) % 2 ^ 64
  let exp := mergeExpires cand s.expires
  let s1 : State := { s with expires := exp }
  let a := env.online.foldl (applyOne env okA) (s1, [])
  (a.1, a.2, some (CB.remainingDelay now exp))

/-- One iteration of the variant worker's teardown loop. -/
def teardownOne (env : CB.Env) (acc : State × List Call) (c : Nat) :
    State × List Call :=
  match env.pol c with
  | none => acc
  | some p =>
    if p.cpu = c then
      let s := acc.1
      if c ∈ s.active then
        ({ s with active := s.active.erase c }, acc.2 ++ [.rem c])
      else acc
    else acc

/-- The variant worker: expiry check first; when unexpired just
reschedule, else remove every active leader's request. -/
def cpu_boost_worker (env : CB.Env) (now : Nat) (s : State) :
    State × List Call × Option Nat :=
  if time_after now s.expires then
    let t := env.online.foldl (teardownOne env) (s, [])
    (t.1, t.2, none)
  else
    (s, [], some (CB.remainingDelay now s.expires))

end CBA

/-! ## The dcvs bus boost driver (`drivers/soc/qcom/dcvs/dcvs_boost.c`)

Domains are the three boosted hardware types.  A "handle" is the voter
registration performed once per hardware type by
`ensure_voter_registered`; votes are batched `qcom_dcvs_update_votes`
calls carrying an (hw, ib-kHz) list, a zero vote releasing the floor. -/

namespace DC

/-- The boosted dcvs hardware types (`boost_hw_list`). -/
inductive Hw where
  | ddr
  | llcc
  | l3
deriving DecidableEq

/-- `boost_hw_list` in iteration order. -/
def boost_hw_list : List Hw := [.ddr, .llcc, .l3]

/-- The `CONFIG_QCOM_DCVS_BOOST_KHZ_*` presets (`u32`, so `Nat`). -/
structure Presets where
  ddr : Nat
  llcc : Nat
  l3 : Nat

/-- `preset_for_hw`. -/
def preset_for_hw (P : Presets) : Hw → Nat
  | .ddr => P.ddr
  | .llcc => P.llcc
  | .l3 => P.l3

/-- The two vote batches issued by one worker pass: the kick-kind batch
(`apply_votes`) and the max-kind batch (`apply_votes_max`). -/
inductive Kind where
  | kick
  | kmax
deriving DecidableEq

/-- One call into the dcvs API: a voter registration attempt, or a
batched vote update of one kind carrying (hw, ib-value) pairs. -/
inductive Call where
  | register (hw : Hw) (ok : Bool)
  | updateVotes (kind : Kind) (votes : List (Hw × Nat))
deriving DecidableEq

/-- Driver state: the registered-voter bitmap, active and pending
bitmaps per kind, and the deadline. -/
structure State where
  registered : Finset Hw
  active : Finset Hw
  active_max : Finset Hw
  pending : Finset Hw
  pending_max : Finset Hw
  expires : Nat
deriving DecidableEq

def initState : State :=
  { registered := ∅, active := ∅, active_max := ∅,
    pending := ∅, pending_max := ∅, expires := 0 }

/-- `ensure_voter_registered`: register once, marking the bitmap only on
success; returns whether a registered voter now exists.  `regOk hw` is
the success of `qcom_dcvs_register_voter`. -/
def ensure_voter_registered (regOk : Hw → Bool) (hw : Hw) (s : State) :
    Bool × State × List Call :=
  if hw ∈ s.registered then (true, s, [])
  else if regOk hw then
    (true, { s with registered := insert hw s.registered },
     [.register hw true])
  else (false, s, [.register hw false])

/-- `clamp_to_hw_bounds`: clamp to the queried [min, max], failing when
the bounds query fails (`bounds hw = none`). -/
def clamp_to_hw_bounds (bounds : Hw → Option (Nat × Nat)) (hw : Hw)
    (khz : Nat) : Option Nat :=
  match bounds hw with
  | none => none
  | some (mn, mx) => some (if khz < mn then mn else if mx < khz then mx else khz)

/-- The body of `apply_votes` for one hardware type: preset value
(0 when clearing), clamped only when nonzero and not clearing; a
bounds-query or registration failure skips the entry. -/
def applyVotesOne (P : Presets) (regOk : Hw → Bool)
    (bounds : Hw → Option (Nat × Nat)) (mask : Finset Hw) (clear : Bool)
    (acc : State × List Call × List (Hw × Nat)) (hw : Hw) :
    State × List Call × List (Hw × Nat) :=
  if hw ∈ mask then
    let r := ensure_voter_registered regOk hw acc.1
    if r.1 then
      let khz := if clear then 0 else preset_for_hw P hw
      if ¬ clear ∧ khz ≠ 0 then
        match clamp_to_hw_bounds bounds hw khz with
        | none => (r.2.1, acc.2.1 ++ r.2.2, acc.2.2)
        | some khz2 =>
          (r.2.1, acc.2.1 ++ r.2.2, acc.2.2 ++ [(hw, khz2)])
      else
        (r.2.1, acc.2.1 ++ r.2.2, acc.2.2 ++ [(hw, khz)])
    else (r.2.1, acc.2.1 ++ r.2.2, acc.2.2)
  else acc

/-- `apply_votes(mask, clear)`: build the vote batch over
`boost_hw_list`, then issue one `qcom_dcvs_update_votes` call when the
batch is nonempty. -/
def apply_votes (P : Presets) (regOk : Hw → Bool)
    (bounds : Hw → Option (Nat × Nat)) (mask : Finset Hw) (clear : Bool)
    (s : State) : State × List Call :=
  let r := boost_hw_list.foldl (applyVotesOne P regOk bounds mask clear)
    (s, [], [])
  if r.2.2 = [] then (r.1, r.2.1)
  else (r.1, r.2.1 ++ [.updateVotes .kick r.2.2])

/-- The body of `apply_votes_max` for one hardware type: the queried
ceiling (0 when clearing); a bounds or registration failure skips. -/
def applyVotesMaxOne (regOk : Hw → Bool)
    (bounds : Hw → Option (Nat × Nat)) (mask : Finset Hw) (clear : Bool)
    (acc : State × List Call × List (Hw × Nat)) (hw : Hw) :
    State × List Call × List (Hw × Nat) :=
  if hw ∈ mask then
    let r := ensure_voter_registered regOk hw acc.1
    if r.1 then
      if clear then
        (r.2.1, acc.2.1 ++ r.2.2, acc.2.2 ++ [(hw, 0)])
      else
        match bounds hw with
        | none => (r.2.1, acc.2.1 ++ r.2.2, acc.2.2)
        | some (_, mx) => (r.2.1, acc.2.1 ++ r.2.2, acc.2.2 ++ [(hw, mx)])
    else (r.2.1, acc.2.1 ++ r.2.2, acc.2.2)
  else acc

/-- `apply_votes_max(mask, clear)`. -/
def apply_votes_max (regOk : Hw → Bool)
    (bounds : Hw → Option (Nat × Nat)) (mask : Finset Hw) (clear : Bool)
    (s : State) : State × List Call :=
  let r := boost_hw_list.foldl (applyVotesMaxOne regOk bounds mask clear)
    (s, [], [])
  if r.2.2 = [] then (r.1, r.2.1)
  else (r.1, r.2.1 ++ [.updateVotes .kmax r.2.2])

/-- The drain of the two dcvs pending sets (`dcvs_boost.c:178-187`). -/
def drain (s : State) : (Finset Hw × Finset Hw) × State :=
  ((s.pending, s.pending_max), { s with pending := ∅, pending_max := ∅ })

/-- The apply phase of `dcvs_boost_worker` (lines 189-200): merge the
drained masks into the active sets, then vote. -/
def applyPhase (P : Presets) (regOk : Hw → Bool)
    (bounds : Hw → Option (Nat × Nat)) (enM enX : Finset Hw) (s : State) :
    State × List Call :=
  let r1 := if enM ≠ ∅ then
      apply_votes P regOk bounds enM false { s with active := s.active ∪ enM }
    else (s, [])
  let r2 := if enX ≠ ∅ then
      apply_votes_max regOk bounds enX false
        { r1.1 with active_max := r1.1.active_max ∪ enX }
    else (r1.1, [])
  (r2.1, r1.2 ++ r2.2)

/-- The teardown phase of `dcvs_boost_worker` (lines 210-219): vote zero
on every active hardware type of either kind, then clear both active
sets unconditionally. -/
def teardownPhase (P : Presets) (regOk : Hw → Bool)
    (bounds : Hw → Option (Nat × Nat)) (s : State) : State × List Call :=
  let r1 := if s.active ≠ ∅ then apply_votes P regOk bounds s.active true s
            else (s, [])
  let r2 := if s.active_max ≠ ∅ then
              apply_votes_max regOk bounds s.active_max true r1.1
            else (r1.1, [])
  ({ r2.1 with active := ∅, active_max := ∅ }, r1.2 ++ r2.2)

/-- One full pass of `dcvs_boost_worker`. -/
def dcvs_boost_worker (P : Presets) (regOk : Hw → Bool)
    (bounds : Hw → Option (Nat × Nat)) (now : Nat) (s : State) :
    State × List Call × Option Nat :=
  let d := drain s
  let a := applyPhase P regOk bounds d.1.1 d.1.2 d.2
  if time_after now a.1.expires then
    let t := teardownPhase P regOk bounds a.1
    (t.1, a.2 ++ t.2, none)
  else
    (a.1, a.2, some (CB.remainingDelay now a.1.expires))

/-- The mask marked by `qcom_dcvs_bus_boost_kick`: the hardware types
with a nonzero preset (`dcvs_boost.c:230-234`). -/
def kickMask (P : Presets) : Finset Hw :=
  (boost_hw_list.filter (fun hw => preset_for_hw P hw ≠ 0)).toFinset

/-- `qcom_dcvs_bus_boost_kick(duration_ms)`: return early when no
hardware type has a nonzero preset; otherwise merge the deadline,
schedule the worker with zero delay, and OR the mask into the kick
pending set. -/
def qcom_dcvs_bus_boost_kick (P : Presets) (HZ now d : Nat) (s : State) :
    State × Option Nat :=
  if kickMask P = ∅ then (s, none)
  else
    let cand := (now + msecs_to_jiffies HZ d) % 2 ^ 64
    ({ s with expires := mergeExpires cand s.expires,
              pending := s.pending ∪ kickMask P },
     some 0)

/-- `qcom_dcvs_bus_boost_kick_max(duration_ms)`: merge the deadline,
schedule, and OR all boosted hardware types into the max pending set. -/
def qcom_dcvs_bus_boost_kick_max (HZ now d : Nat)
    (s : State) : State × Option Nat :=
  let cand := (now + msecs_to_jiffies HZ d) % 2 ^ 64
  ({ s with expires := mergeExpires cand s.expires,
            pending_max := s.pending_max ∪ boost_hw_list.toFinset },
   some 0)

/-- The states reachable by the dcvs boost driver from module init,
with the trace of dcvs-API calls issued so far. -/
inductive Reachable (P : Presets) (HZ : Nat) :
    State → List Call → Prop where
  | init : Reachable P HZ initState []
  | kick (s tr now d) (h : Reachable P HZ s tr) :
      Reachable P HZ (qcom_dcvs_bus_boost_kick P HZ now d s).1 tr
  | kickMax (s tr now d) (h : Reachable P HZ s tr) :
      Reachable P HZ (qcom_dcvs_bus_boost_kick_max HZ now d s).1 tr
  | worker (s tr regOk bounds now) (h : Reachable P HZ s tr) :
      Reachable P HZ (dcvs_boost_worker P regOk bounds now s).1
        (tr ++ (dcvs_boost_worker P regOk bounds now s).2.1)

end DC

/-! ## The kprofiles profile-mode module (`__kp_set_mode` and friends) -/

namespace KP

/-- `EINVAL`. -/
def EINVAL : Int := 22

/-- `__kp_set_mode(level)` acting on the stored `kp_mode`: reject levels
above 3 with `-EINVAL`, else store the level; returns (ret, new mode). -/
def kp_set_mode_level (level : Nat) (mode : Nat) : Int × Nat :=
  if 3 < level then (-EINVAL, mode) else (0, level)

/-- The in-kernel setter `kp_set_mode(level)`: calls `__kp_set_mode`
under the lock and keeps the old mode on error. -/
def kp_set_mode (level : Nat) (mode : Nat) : Nat :=
  (kp_set_mode_level level mode).2

/-- The sysfs store `kp_mode_store` after a successful `kstrtouint`
parse of `new_mode`: `__kp_set_mode`, propagating its error (mode
untouched) or returning the byte count on success. -/
def kp_mode_store (new_mode : Nat) (mode : Nat) (count : Nat) :
    Except Int Nat × Nat :=
  let r := kp_set_mode_level new_mode mode
  if r.1 = 0 then (.ok count, r.2) else (.error r.1, r.2)

end KP

/-! ## Derived definitions used by the statements and proofs -/

namespace CB

/-- `c` is the leader of its own cpufreq policy (`policy->cpu == cpu`). -/
def isLeaderB (env : Env) (c : Nat) : Bool :=
  match env.pol c with
  | some p => decide (p.cpu = c)
  | none => false

/-- `c` is a CPU the reconciler can issue constraint calls for: online
and the leader of a retrievable policy. -/
def eligibleB (env : Env) (c : Nat) : Bool :=
  decide (c ∈ env.online) && isLeaderB env c

/-- The state transition of one apply-loop iteration, separated from
the calls it emits. -/
def applyStep (env : Env) (k : KickCfg) (okM okK : Nat → Bool)
    (enM enK : Finset Nat) (s : State) (c : Nat) : State :=
  (applyOne env k okM okK enM enK (s, []) c).1

/-- The calls emitted by one apply-loop iteration. -/
def applyCalls (env : Env) (k : KickCfg) (okM okK : Nat → Bool)
    (enM enK : Finset Nat) (s : State) (c : Nat) : List QosCall :=
  (applyOne env k okM okK enM enK (s, []) c).2

/-- The state transition of one teardown-loop iteration. -/
def tdStep (env : Env) (s : State) (c : Nat) : State :=
  (teardownOne env (s, []) c).1

/-- The calls emitted by one teardown-loop iteration. -/
def tdCalls (env : Env) (s : State) (c : Nat) : List QosCall :=
  (teardownOne env (s, []) c).2

/-- Effect of one constraint-API call on the multiset of live freq_qos
request handles, per kind: a successful add creates one, a remove
destroys one, an update leaves the handle in place. -/
def liveStep (m : Multiset Nat × Multiset Nat) (call : QosCall) :
    Multiset Nat × Multiset Nat :=
  match call with
  | .addMax c _ true => (c ::ₘ m.1, m.2)
  | .remMax c => (m.1.erase c, m.2)
  | .addKick c _ true => (m.1, c ::ₘ m.2)
  | .remKick c => (m.1, m.2.erase c)
  | _ => m

/-- The multisets of live (max, kick) handles left by a call trace. -/
def liveHandles (tr : List QosCall) : Multiset Nat × Multiset Nat :=
  tr.foldl liveStep (0, 0)

/-- A kick-kind install or update only ever targets a CPU whose tier
preset is positive. -/
def kickPosCall (k : KickCfg) : QosCall → Prop
  | .addKick c _ _ => 0 < kick_khz_for_cpu k c
  | .updKick c _ => 0 < kick_khz_for_cpu k c
  | _ => True

/-- The master invariant of the cpufreq boost driver: online CPUs are
enumerated without repetition, every active bit belongs to an eligible
leader, the live handles of the trace are exactly the active sets (one
handle per active member), and kick calls respect the preset filter. -/
def Inv (k : KickCfg) (env : Env) (s : State) (tr : List QosCall) : Prop :=
  env.online.Nodup ∧
  (∀ c ∈ s.active_max, eligibleB env c = true) ∧
  (∀ c ∈ s.active_kick, eligibleB env c = true) ∧
  liveHandles tr = (s.active_max.val, s.active_kick.val) ∧
  (∀ call ∈ tr, kickPosCall k call)

/-- No retrievable policy names `D` as its leader. -/
def avoids (env : Env) (D : Nat) : Prop :=
  ∀ c p, env.pol c = some p → p.cpu ≠ D

/-- The steps the cpufreq boost driver can take after a policy-removal
event for domain `D`, as long as no new policy re-registers `D` as a
leader: request calls, worker passes, creation of policies led by other
CPUs, and further policy removals. -/
inductive StepsNoAdd (k : KickCfg) (HZ : Nat) (D : Nat) :
    Env → State → Env → State → List QosCall → Prop where
  | refl (env s) : StepsNoAdd k HZ D env s env s []
  | boostMax (env s env' s' tr now d)
      (h : StepsNoAdd k HZ D env s env' s' tr) :
      StepsNoAdd k HZ D env s env' (cpu_boost_max env' HZ now d s').1 tr
  | boostKick (env s env' s' tr now d)
      (h : StepsNoAdd k HZ D env s env' s' tr) :
      StepsNoAdd k HZ D env s env' (cpu_boost_kick env' HZ now d s').1 tr
  | worker (env s env' s' tr okM okK now)
      (h : StepsNoAdd k HZ D env s env' s' tr) :
      StepsNoAdd k HZ D env s env'
        (cpu_boost_worker env' k okM okK now s').1
        (tr ++ (cpu_boost_worker env' k okM okK now s').2.1)
  | addDom (env s env' s' tr L f members)
      (h : StepsNoAdd k HZ D env s env' s' tr) (hL : L ≠ D)
      (hmem : L ∈ members) (hnd : members.Nodup)
      (hfresh : ∀ c ∈ members, env'.pol c = none ∧ c ∉ env'.online) :
      StepsNoAdd k HZ D env s (envAddDom env' L f members) s' tr
  | removeDom (env s env' s' tr L p)
      (h : StepsNoAdd k HZ D env s env' s' tr)
      (hp : env'.pol L = some p) (hLp : p.cpu = L) :
      StepsNoAdd k HZ D env s (envRemove env' L)
        (boost_policy_notifier L s').1
        (tr ++ (boost_policy_notifier L s').2)

end CB

namespace CBA

/-- The state transition of one iteration of the variant's synchronous
apply loop. -/
def applyStep (env : CB.Env) (okA : Nat → Bool) (s : State) (c : Nat) :
    State :=
  (applyOne env okA (s, []) c).1

/-- The calls emitted by one iteration of that loop. -/
def applyCalls (env : CB.Env) (okA : Nat → Bool) (s : State) (c : Nat) :
    List Call :=
  (applyOne env okA (s, []) c).2

end CBA

namespace DC

/-- Effect of one dcvs-API call on the multiset of registered voters:
only a successful `qcom_dcvs_register_voter` creates one and nothing
ever destroys one. -/
def regStep (m : Multiset Hw) (call : Call) : Multiset Hw :=
  match call with
  | .register hw true => hw ::ₘ m
  | _ => m

/-- The multiset of registered voters left by a call trace. -/
def regHandles (tr : List Call) : Multiset Hw :=
  tr.foldl regStep 0

/-- A kick-kind vote batch touches only hardware types with a nonzero
preset. -/
def kickVoteOk (P : Presets) : Call → Prop
  | .updateVotes .kick votes => ∀ v ∈ votes, preset_for_hw P v.1 ≠ 0
  | _ => True

/-- The master invariant of the dcvs boost driver: kick-kind pending and
active bits only for nonzero presets, the registered bitmap is exactly
the multiset of live voter registrations (so one registration per
hardware type), and kick vote batches respect the preset filter. -/
def Inv (P : Presets) (s : State) (tr : List Call) : Prop :=
  s.pending ⊆ kickMask P ∧
  s.active ⊆ kickMask P ∧
  regHandles tr = s.registered.val ∧
  (∀ call ∈ tr, kickVoteOk P call)

/-- The state transition of one `apply_votes` iteration. -/
def avStep (P : Presets) (regOk : Hw → Bool)
    (bounds : Hw → Option (Nat × Nat)) (mask : Finset Hw) (clear : Bool)
    (s : State) (hw : Hw) : State :=
  (applyVotesOne P regOk bounds mask clear (s, [], []) hw).1

/-- The registration calls emitted by one `apply_votes` iteration. -/
def avCalls (P : Presets) (regOk : Hw → Bool)
    (bounds : Hw → Option (Nat × Nat)) (mask : Finset Hw) (clear : Bool)
    (s : State) (hw : Hw) : List Call :=
  (applyVotesOne P regOk bounds mask clear (s, [], []) hw).2.1

/-- The vote-batch entries contributed by one `apply_votes` iteration. -/
def avVotes (P : Presets) (regOk : Hw → Bool)
    (bounds : Hw → Option (Nat × Nat)) (mask : Finset Hw) (clear : Bool)
    (s : State) (hw : Hw) : List (Hw × Nat) :=
  (applyVotesOne P regOk bounds mask clear (s, [], []) hw).2.2

/-- The state transition of one `apply_votes_max` iteration. -/
def avmStep (regOk : Hw → Bool) (bounds : Hw → Option (Nat × Nat))
    (mask : Finset Hw) (clear : Bool) (s : State) (hw : Hw) : State :=
  (applyVotesMaxOne regOk bounds mask clear (s, [], []) hw).1

/-- The registration calls emitted by one `apply_votes_max` iteration. -/
def avmCalls (regOk : Hw → Bool) (bounds : Hw → Option (Nat × Nat))
    (mask : Finset Hw) (clear : Bool) (s : State) (hw : Hw) : List Call :=
  (applyVotesMaxOne regOk bounds mask clear (s, [], []) hw).2.1

/-- The vote-batch entries contributed by one `apply_votes_max`
iteration. -/
def avmVotes (regOk : Hw → Bool) (bounds : Hw → Option (Nat × Nat))
    (mask : Finset Hw) (clear : Bool) (s : State) (hw : Hw) :
    List (Hw × Nat) :=
  (applyVotesMaxOne regOk bounds mask clear (s, [], []) hw).2.2

/-- Total number of zero-kHz votes a call list casts for `hw` in batches
of the given kind: the "remove calls" a dcvs boost handle receives. -/
def zeroVotesFor (kind : Kind) (hw : Hw) (calls : List Call) : Nat :=
  (calls.map (fun call =>
    match call with
    | .updateVotes kd votes => if kd = kind then votes.count (hw, 0) else 0
    | _ => 0)).sum

end DC

/-! ## Witness fixtures: small concrete instances -/

namespace CB

/-- A two-CPU machine with CPU 0 online as its own policy leader. -/
def envT : Env :=
  { nrCpus := 2, online := [0],
    pol := fun c => if c = 0 then some ⟨0, 3000⟩ else none }

/-- A concrete positive kick preset table. -/
def kickT : KickCfg := ⟨300, 600, 900, 1200⟩

/-- Constraint-API success on every CPU. -/
def okT : Nat → Bool := fun _ => true

end CB

namespace DC

/-- Concrete positive dcvs presets. -/
def presetsT : Presets := ⟨1000, 500, 300⟩

/-- Voter registration succeeding on every hardware type. -/
def regOkT : Hw → Bool := fun _ => true

/-- Concrete hardware bounds. -/
def boundsT : Hw → Option (Nat × Nat) := fun _ => some (100, 2000)

end DC

/-! # Theorems

First the arithmetic facts about the time model, then the per-claim
results. -/

/-- For values inside the same half of the counter range, `time_after`
is exactly the strict order on `Nat`. -/
theorem time_after_eq_lt (a b : Nat) (ha : a < 2 ^ 63) (hb : b < 2 ^ 63) :
    time_after a b = true ↔ b < a := by
  unfold time_after
  rw [decide_eq_true_iff]
  have hamod : a % 2 ^ 64 = a := Nat.mod_eq_of_lt (by omega)
  rw [hamod]
  rcases Nat.lt_or_ge b a with hlt | hge
  · have hval : b + 2 ^ 64 - a < 2 ^ 64 := by omega
    rw [Nat.mod_eq_of_lt hval]
    omega
  · have hsplit : b + 2 ^ 64 - a = (b - a) + 2 ^ 64 := by omega
    rw [hsplit, Nat.add_mod_right, Nat.mod_eq_of_lt (by omega)]
    omega

/-- `msecs_to_jiffies` maps a zero duration to zero ticks. -/
theorem msecs_to_jiffies_zero (HZ : Nat) (h1 : 0 < HZ) (h2 : HZ ≤ 1000) :
    msecs_to_jiffies HZ 0 = 0 := by
  unfold msecs_to_jiffies
  have hpos : 0 < 1000 / HZ := Nat.div_pos h2 h1
  exact Nat.div_eq_of_lt (by omega)

/-- In the unwrapped range the merge is exactly the maximum. -/
theorem mergeExpires_eq_max (cand old : Nat)
    (hc : cand < 2 ^ 63) (ho : old < 2 ^ 63) :
    mergeExpires cand old = max old cand := by
  unfold mergeExpires
  by_cases h : time_after old cand = true
  · rw [if_pos h]
    have := (time_after_eq_lt old cand ho hc).mp h
    omega
  · rw [if_neg h]
    have : ¬ cand < old := fun hlt =>
      h ((time_after_eq_lt old cand ho hc).mpr hlt)
    omega

/-- C5 (counterexample): at `now = deadline = 5` the expiry predicate of
both drivers returns false although `now >= deadline` holds, so "expired
exactly when now >= deadline" is wrong at the boundary. -/
theorem C5_counterexample_expiry_at_deadline :
    ¬ ((boost_window_expired 5 5 = true) ↔ 5 ≥ 5) := by
  decide

/-- C5 (amended): the expiry predicate returns true exactly when `now`
is strictly after the deadline (at `now = deadline` the window is not
yet expired), and the reschedule delay the reconciler computes equals
`max 0 (deadline - now)`. -/
theorem C5_expiry_strict_and_delay (now exp : Nat)
    (hn : now < 2 ^ 63) (he : exp < 2 ^ 63) :
    ((boost_window_expired now exp = true) ↔ exp < now) ∧
    ((CB.remainingDelay now exp : Int) = max 0 ((exp : Int) - (now : Int))) := by
  constructor
  · exact time_after_eq_lt now exp hn he
  · unfold CB.remainingDelay
    by_cases h : time_after exp now = true
    · rw [if_pos h]
      have hlt := (time_after_eq_lt exp now he hn).mp h
      rw [Nat.cast_sub (Nat.le_of_lt hlt)]
      omega
    · rw [if_neg h]
      have : ¬ now < exp := fun hlt =>
        h ((time_after_eq_lt exp now he hn).mpr hlt)
      simp only [Nat.cast_zero]
      omega

/-- C5 witness: the amended statement at `now = 7`, `deadline = 5`. -/
theorem C5_expiry_strict_and_delay_witness :
    ((boost_window_expired 7 5 = true) ↔ 5 < 7) ∧
    ((CB.remainingDelay 7 5 : Int) = max 0 ((5 : Int) - (7 : Int))) :=
  C5_expiry_strict_and_delay 7 5 (by decide) (by decide)

/-- C9: the profile-mode control point accepts exactly 0..3; any larger
write, through the sysfs store or the in-kernel setter, returns
`-EINVAL` and leaves the stored mode unchanged, while a write of 0..3
stores exactly that value. -/
theorem C9_profile_mode_range (level mode count : Nat) :
    (3 < level →
      (KP.kp_mode_store level mode count).1 = .error (-KP.EINVAL) ∧
      (KP.kp_mode_store level mode count).2 = mode ∧
      KP.kp_set_mode level mode = mode ∧
      (KP.kp_set_mode_level level mode).1 = -KP.EINVAL) ∧
    (level ≤ 3 →
      (KP.kp_mode_store level mode count).1 = .ok count ∧
      (KP.kp_mode_store level mode count).2 = level ∧
      KP.kp_set_mode level mode = level) := by
  unfold KP.kp_mode_store KP.kp_set_mode KP.kp_set_mode_level KP.EINVAL
  constructor
  · intro h
    rw [if_pos h]
    norm_num
  · intro h
    rw [if_neg (show ¬ 3 < level by omega)]
    norm_num

/-- C9 witness: a write of 4 is rejected leaving mode 1 in place; a
write of 2 stores 2. -/
theorem C9_profile_mode_range_witness :
    ((KP.kp_mode_store 4 1 10).1 = .error (-KP.EINVAL) ∧
      (KP.kp_mode_store 4 1 10).2 = 1) ∧
    ((KP.kp_mode_store 2 1 10).1 = .ok 10 ∧
      (KP.kp_mode_store 2 1 10).2 = 2) :=
  ⟨⟨((C9_profile_mode_range 4 1 10).1 (by decide)).1,
    ((C9_profile_mode_range 4 1 10).1 (by decide)).2.1⟩,
   ⟨((C9_profile_mode_range 2 1 10).2 (by decide)).1,
    ((C9_profile_mode_range 2 1 10).2 (by decide)).2.1⟩⟩

/-- C4: the drain snapshots exactly the pre-drain pending sets (so every
mark completed before the drain is in the snapshot and nothing marked
after it is), clears both pending sets in the same critical section (a
second drain returns nothing), and repeated marks before a drain
coalesce (marking is idempotent on the pending sets), in both drivers. -/
theorem C4_drain_snapshot_clear_coalesce :
    (∀ s : CB.State,
      (CB.drain s).1 = (s.pending_max, s.pending_kick) ∧
      (CB.drain s).2.pending_max = ∅ ∧ (CB.drain s).2.pending_kick = ∅ ∧
      (CB.drain s).2.active_max = s.active_max ∧
      (CB.drain s).2.active_kick = s.active_kick ∧
      (CB.drain s).2.expires = s.expires ∧
      (CB.drain (CB.drain s).2).1 = (∅, ∅)) ∧
    (∀ (env : CB.Env) (HZ now d : Nat) (s : CB.State) (c : Nat),
      c < env.nrCpus →
      c ∈ (CB.drain (CB.cpu_boost_max env HZ now d s).1).1.1 ∧
      c ∈ (CB.drain (CB.cpu_boost_kick env HZ now d s).1).1.2) ∧
    (∀ (env : CB.Env) (HZ now d now2 d2 : Nat) (s : CB.State),
      (CB.cpu_boost_max env HZ now2 d2
          (CB.cpu_boost_max env HZ now d s).1).1.pending_max =
        (CB.cpu_boost_max env HZ now d s).1.pending_max ∧
      (CB.cpu_boost_kick env HZ now2 d2
          (CB.cpu_boost_kick env HZ now d s).1).1.pending_kick =
        (CB.cpu_boost_kick env HZ now d s).1.pending_kick) ∧
    (∀ s : DC.State,
      (DC.drain s).1 = (s.pending, s.pending_max) ∧
      (DC.drain s).2.pending = ∅ ∧ (DC.drain s).2.pending_max = ∅ ∧
      (DC.drain s).2.active = s.active ∧
      (DC.drain s).2.active_max = s.active_max ∧
      (DC.drain s).2.registered = s.registered ∧
      (DC.drain s).2.expires = s.expires ∧
      (DC.drain (DC.drain s).2).1 = (∅, ∅)) ∧
    (∀ (P : DC.Presets) (HZ now d : Nat) (s : DC.State),
      DC.kickMask P ≠ ∅ →
      DC.kickMask P ⊆ (DC.drain (DC.qcom_dcvs_bus_boost_kick P HZ now d s).1).1.1) ∧
    (∀ (HZ now d : Nat) (s : DC.State),
      DC.boost_hw_list.toFinset ⊆
        (DC.drain (DC.qcom_dcvs_bus_boost_kick_max HZ now d s).1).1.2) ∧
    (∀ (P : DC.Presets) (HZ now d now2 d2 : Nat) (s : DC.State),
      (DC.qcom_dcvs_bus_boost_kick P HZ now2 d2
          (DC.qcom_dcvs_bus_boost_kick P HZ now d s).1).1.pending =
        (DC.qcom_dcvs_bus_boost_kick P HZ now d s).1.pending ∧
      (DC.qcom_dcvs_bus_boost_kick_max HZ now2 d2
          (DC.qcom_dcvs_bus_boost_kick_max HZ now d s).1).1.pending_max =
        (DC.qcom_dcvs_bus_boost_kick_max HZ now d s).1.pending_max) := by
  refine ⟨?_, ?_, ?_, ?_, ?_, ?_, ?_⟩
  · intro s
    simp [CB.drain]
  · intro env HZ now d s c hc
    simp [CB.drain, CB.cpu_boost_max, CB.cpu_boost_kick, Finset.mem_range, hc]
  · intro env HZ now d now2 d2 s
    simp [CB.cpu_boost_max, CB.cpu_boost_kick]
  · intro s
    simp [DC.drain]
  · intro P HZ now d s h
    unfold DC.qcom_dcvs_bus_boost_kick
    rw [if_neg h]
    simp [DC.drain]
  · intro HZ now d s
    simp [DC.drain, DC.qcom_dcvs_bus_boost_kick_max]
  · intro P HZ now d now2 d2 s
    constructor
    · unfold DC.qcom_dcvs_bus_boost_kick
      by_cases h : DC.kickMask P = ∅
      · rw [if_pos h, if_pos h]
      · rw [if_neg h, if_neg h]
        simp [Finset.union_assoc]
    · simp [DC.qcom_dcvs_bus_boost_kick_max, Finset.union_assoc]

/-- C4 witness: instantiations on a concrete state of each driver. -/
theorem C4_drain_witness :
    0 ∈ (CB.drain (CB.cpu_boost_max CB.envT 250 5 40 CB.initState).1).1.1 ∧
    DC.kickMask DC.presetsT ⊆
      (DC.drain (DC.qcom_dcvs_bus_boost_kick DC.presetsT 250 5 40
        DC.initState).1).1.1 :=
  ⟨(C4_drain_snapshot_clear_coalesce.2.1 CB.envT 250 5 40 CB.initState 0
      (by decide)).1,
   C4_drain_snapshot_clear_coalesce.2.2.2.2.1 DC.presetsT 250 5 40
      DC.initState (by decide)⟩

/-- C2 (counterexample): with every dcvs preset configured to zero,
`qcom_dcvs_bus_boost_kick` returns before touching the deadline, so the
stored deadline is not `max(previous, now + duration)`. -/
theorem C2_counterexample_kick_all_presets_zero :
    (DC.qcom_dcvs_bus_boost_kick ⟨0, 0, 0⟩ 250 10 100 DC.initState).1.expires
      ≠ max DC.initState.expires (10 + msecs_to_jiffies 250 100) := by
  decide

/-- C2 (amended): every request call stores
`max(previous deadline, now + duration-in-ticks)` — so a request never
lowers the deadline, and a zero duration is a legal no-op that merges the
deadline to no later than `now` — except that `qcom_dcvs_bus_boost_kick`
with every per-domain preset zero returns early and leaves the whole
state unchanged. -/
theorem C2_deadline_merge (env : CB.Env) (P : DC.Presets)
    (HZ now d : Nat) (cs : CB.State) (ds : DC.State)
    (hnd : now + msecs_to_jiffies HZ d < 2 ^ 63)
    (hcs : cs.expires < 2 ^ 63) (hds : ds.expires < 2 ^ 63) :
    (CB.cpu_boost_max env HZ now d cs).1.expires
      = max cs.expires (now + msecs_to_jiffies HZ d) ∧
    (CB.cpu_boost_kick env HZ now d cs).1.expires
      = max cs.expires (now + msecs_to_jiffies HZ d) ∧
    (DC.qcom_dcvs_bus_boost_kick_max HZ now d ds).1.expires
      = max ds.expires (now + msecs_to_jiffies HZ d) ∧
    (DC.kickMask P ≠ ∅ →
      (DC.qcom_dcvs_bus_boost_kick P HZ now d ds).1.expires
        = max ds.expires (now + msecs_to_jiffies HZ d)) ∧
    (DC.kickMask P = ∅ →
      (DC.qcom_dcvs_bus_boost_kick P HZ now d ds).1 = ds) ∧
    cs.expires ≤ (CB.cpu_boost_max env HZ now d cs).1.expires ∧
    (0 < HZ → HZ ≤ 1000 →
      (CB.cpu_boost_max env HZ now 0 cs).1.expires = max cs.expires now) := by
  have hmod : (now + msecs_to_jiffies HZ d) % 2 ^ 64
      = now + msecs_to_jiffies HZ d := Nat.mod_eq_of_lt (by omega)
  have h1 : (CB.cpu_boost_max env HZ now d cs).1.expires
      = max cs.expires (now + msecs_to_jiffies HZ d) := by
    show mergeExpires ((now + msecs_to_jiffies HZ d) % 2 ^ 64) cs.expires = _
    rw [hmod, mergeExpires_eq_max _ _ hnd hcs]
  refine ⟨h1, ?_, ?_, ?_, ?_, ?_, ?_⟩
  · show mergeExpires ((now + msecs_to_jiffies HZ d) % 2 ^ 64) cs.expires = _
    rw [hmod, mergeExpires_eq_max _ _ hnd hcs]
  · show mergeExpires ((now + msecs_to_jiffies HZ d) % 2 ^ 64) ds.expires = _
    rw [hmod, mergeExpires_eq_max _ _ hnd hds]
  · intro h
    unfold DC.qcom_dcvs_bus_boost_kick
    rw [if_neg h]
    show mergeExpires ((now + msecs_to_jiffies HZ d) % 2 ^ 64) ds.expires = _
    rw [hmod, mergeExpires_eq_max _ _ hnd hds]
  · intro h
    unfold DC.qcom_dcvs_bus_boost_kick
    rw [if_pos h]
  · rw [h1]
    exact le_max_left _ _
  · intro hz1 hz2
    have hz0 := msecs_to_jiffies_zero HZ hz1 hz2
    have hmod0 : (now + msecs_to_jiffies HZ 0) % 2 ^ 64
        = now + msecs_to_jiffies HZ 0 := Nat.mod_eq_of_lt (by omega)
    show mergeExpires ((now + msecs_to_jiffies HZ 0) % 2 ^ 64) cs.expires = _
    rw [hmod0, mergeExpires_eq_max _ _ (by omega) hcs, hz0, Nat.add_zero]

/-- C2 witness: the amended statement on concrete states with a nonzero
preset table. -/
theorem C2_deadline_merge_witness :
    (CB.cpu_boost_max CB.envT 250 10 100 CB.initState).1.expires
      = max CB.initState.expires (10 + msecs_to_jiffies 250 100) ∧
    (DC.kickMask DC.presetsT ≠ ∅ →
      (DC.qcom_dcvs_bus_boost_kick DC.presetsT 250 10 100 DC.initState).1.expires
        = max DC.initState.expires (10 + msecs_to_jiffies 250 100)) :=
  ⟨(C2_deadline_merge CB.envT DC.presetsT 250 10 100 CB.initState
      DC.initState (by decide) (by decide) (by decide)).1,
   (C2_deadline_merge CB.envT DC.presetsT 250 10 100 CB.initState
      DC.initState (by decide) (by decide) (by decide)).2.2.2.1⟩

/-! ## Generic lemmas about state-and-emission folds -/

/-- A fold whose body transitions state and appends emitted calls splits
into the pure state fold and the emitted-call list. -/
theorem foldl_emits {σ α β : Type} (g : σ → α → σ) (h : σ → α → List β)
    (F : σ × List β → α → σ × List β)
    (hF : ∀ s cs c, F (s, cs) c = (g s c, cs ++ h s c)) :
    ∀ (l : List α) (s : σ) (cs : List β),
      l.foldl F (s, cs) = (l.foldl g s, cs ++ emits g h s l) := by
  intro l
  induction l with
  | nil => intro s cs; simp [emits]
  | cons c t ih =>
    intro s cs
    rw [List.foldl_cons, List.foldl_cons, hF, ih]
    simp [emits]

/-- Every emitted call comes from some list element's own emission. -/
theorem emits_exists {σ α β : Type} (g : σ → α → σ) (h : σ → α → List β)
    (Q : α → β → Prop) (hstep : ∀ s c, ∀ b ∈ h s c, Q c b) :
    ∀ (l : List α) (s : σ), ∀ b ∈ emits g h s l, ∃ c ∈ l, Q c b := by
  intro l
  induction l with
  | nil => intro s b hb; simp [emits] at hb
  | cons c t ih =>
    intro s b hb
    simp only [emits, List.mem_append] at hb
    rcases hb with hb | hb
    · exact ⟨c, List.mem_cons_self c t, hstep s c b hb⟩
    · obtain ⟨c2, hc2, hQ⟩ := ih (g s c) b hb
      exact ⟨c2, List.mem_cons_of_mem c hc2, hQ⟩

/-- A quantity preserved by every step is preserved by the fold. -/
theorem foldl_frame {σ α γ : Type} (g : σ → α → σ) (f : σ → γ)
    (hstep : ∀ s c, f (g s c) = f s) :
    ∀ (l : List α) (s : σ), f (l.foldl g s) = f s := by
  intro l
  induction l with
  | nil => intro s; rfl
  | cons c t ih => intro s; rw [List.foldl_cons, ih, hstep]

/-- A property preserved (as an iff) by every step of the list is
preserved by the fold. -/
theorem foldl_frame_iff {σ α : Type} (g : σ → α → σ) (f : σ → Prop)
    (l : List α) (hstep : ∀ s c, c ∈ l → (f (g s c) ↔ f s)) :
    ∀ s : σ, f (l.foldl g s) ↔ f s := by
  induction l with
  | nil => intro s; rfl
  | cons c t ih =>
    intro s
    rw [List.foldl_cons,
      ih (fun s2 c2 hc2 => hstep s2 c2 (List.mem_cons_of_mem c hc2)),
      hstep s c (List.mem_cons_self c t)]

/-- An invariant preserved by every step survives the fold. -/
theorem foldl_inv {σ α : Type} (g : σ → α → σ) (Q : σ → Prop)
    (hstep : ∀ s c, Q s → Q (g s c)) :
    ∀ (l : List α) (s : σ), Q s → Q (l.foldl g s) := by
  intro l
  induction l with
  | nil => intro s hs; exact hs
  | cons c t ih => intro s hs; exact ih (g s c) (hstep s c hs)

/-- Folding an abstraction function over the emitted calls tracks the
state fold whenever each step's emission does. -/
theorem emits_foldl_rel {σ α β γ : Type} (g : σ → α → σ)
    (h : σ → α → List β) (v : σ → γ) (step2 : γ → β → γ)
    (hstep : ∀ s c, (h s c).foldl step2 (v s) = v (g s c)) :
    ∀ (l : List α) (s : σ),
      (emits g h s l).foldl step2 (v s) = v (l.foldl g s) := by
  intro l
  induction l with
  | nil => intro s; simp [emits]
  | cons c t ih =>
    intro s
    simp only [emits, List.foldl_append, List.foldl_cons]
    rw [hstep, ih]

/-! ## Step lemmas for the cpufreq boost driver -/

namespace CB

/-- `isLeaderB` spelled through the policy lookup. -/
theorem isLeaderB_iff (env : Env) (c : Nat) :
    isLeaderB env c = true ↔ ∃ p, env.pol c = some p ∧ p.cpu = c := by
  unfold isLeaderB
  cases h : env.pol c <;> simp

/-- `applyOne` in state-and-emission shape. -/
theorem applyOne_shape (env : Env) (k : KickCfg) (okM okK : Nat → Bool)
    (enM enK : Finset Nat) (acc : State × List QosCall) (c : Nat) :
    applyOne env k okM okK enM enK acc c =
      (applyStep env k okM okK enM enK acc.1 c,
       acc.2 ++ applyCalls env k okM okK enM enK acc.1 c) := by
  obtain ⟨s, cs⟩ := acc
  unfold applyStep applyCalls applyOne
  cases env.pol c with
  | none => simp
  | some p => by_cases hp : p.cpu = c <;> simp [hp]

/-- `applyPass` split into its state fold and its emitted calls. -/
theorem applyPass_eq (env : Env) (k : KickCfg) (okM okK : Nat → Bool)
    (enM enK : Finset Nat) (s : State) :
    applyPass env k okM okK enM enK s =
      (env.online.foldl (applyStep env k okM okK enM enK) s,
       emits (applyStep env k okM okK enM enK)
         (applyCalls env k okM okK enM enK) s env.online) := by
  unfold applyPass
  rw [foldl_emits (applyStep env k okM okK enM enK)
    (applyCalls env k okM okK enM enK) _
    (fun s2 cs c => applyOne_shape env k okM okK enM enK (s2, cs) c)
    env.online s []]
  simp

/-- `teardownOne` in state-and-emission shape. -/
theorem teardownOne_shape (env : Env) (acc : State × List QosCall)
    (c : Nat) :
    teardownOne env acc c = (tdStep env acc.1 c, acc.2 ++ tdCalls env acc.1 c) := by
  obtain ⟨s, cs⟩ := acc
  unfold tdStep tdCalls teardownOne
  cases env.pol c with
  | none => simp
  | some p => by_cases hp : p.cpu = c <;> simp [hp]

/-- `teardownPass` split into its state fold and its emitted calls. -/
theorem teardownPass_eq (env : Env) (s : State) :
    teardownPass env s =
      (env.online.foldl (tdStep env) s,
       emits (tdStep env) (tdCalls env) s env.online) := by
  unfold teardownPass
  rw [foldl_emits (tdStep env) (tdCalls env) _
    (fun s2 cs c => teardownOne_shape env (s2, cs) c) env.online s []]
  simp

end CB

namespace CB

/-- `stepMax` leaves everything but the max active set untouched. -/
theorem stepMax_frame (okM : Nat → Bool) (p : Policy) (c : Nat)
    (enM : Finset Nat) (s : State) :
    (stepMax okM p c enM s).1.expires = s.expires ∧
    (stepMax okM p c enM s).1.pending_max = s.pending_max ∧
    (stepMax okM p c enM s).1.pending_kick = s.pending_kick ∧
    (stepMax okM p c enM s).1.active_kick = s.active_kick := by
  unfold stepMax
  split_ifs <;> simp

/-- Membership in the max active set after `stepMax`. -/
theorem stepMax_active (okM : Nat → Bool) (p : Policy) (c : Nat)
    (enM : Finset Nat) (s : State) (x : Nat) :
    x ∈ (stepMax okM p c enM s).1.active_max ↔
      x ∈ s.active_max ∨
        (x = c ∧ c ∈ enM ∧ c ∉ s.active_max ∧ okM c = true) := by
  unfold stepMax
  split_ifs with h1 h2 h3 <;> simp [Finset.mem_insert] <;> tauto

/-- Every call `stepMax` emits targets `c`, is of max kind, and tracks
the live-handle abstraction. -/
theorem stepMax_calls (okM : Nat → Bool) (p : Policy) (c : Nat)
    (enM : Finset Nat) (s : State) :
    ∀ call ∈ (stepMax okM p c enM s).2,
      call.cpu = c ∧ kickPosCall k call := by
  unfold stepMax
  split_ifs <;> simp [QosCall.cpu, kickPosCall]

/-- `stepMax`'s emission tracks the live max-handle multiset. -/
theorem stepMax_live (okM : Nat → Bool) (p : Policy) (c : Nat)
    (enM : Finset Nat) (s : State) (m2 : Multiset Nat) :
    (stepMax okM p c enM s).2.foldl liveStep (s.active_max.val, m2) =
      ((stepMax okM p c enM s).1.active_max.val, m2) := by
  unfold stepMax
  split_ifs <;>
    simp_all [liveStep, Finset.insert_val_of_not_mem]

/-- `stepKick` leaves everything but the kick active set untouched. -/
theorem stepKick_frame (k : KickCfg) (okK : Nat → Bool) (p : Policy)
    (c : Nat) (enK : Finset Nat) (s : State) :
    (stepKick k okK p c enK s).1.expires = s.expires ∧
    (stepKick k okK p c enK s).1.pending_max = s.pending_max ∧
    (stepKick k okK p c enK s).1.pending_kick = s.pending_kick ∧
    (stepKick k okK p c enK s).1.active_max = s.active_max := by
  unfold stepKick
  split_ifs <;> simp

/-- Membership in the kick active set after `stepKick`. -/
theorem stepKick_active (k : KickCfg) (okK : Nat → Bool) (p : Policy)
    (c : Nat) (enK : Finset Nat) (s : State) (x : Nat) :
    x ∈ (stepKick k okK p c enK s).1.active_kick ↔
      x ∈ s.active_kick ∨
        (x = c ∧ c ∈ enK ∧ 0 < kick_khz_for_cpu k c ∧
          c ∉ s.active_kick ∧ okK c = true) := by
  unfold stepKick
  split_ifs with h1 h2 h3 h4 <;> simp [Finset.mem_insert] <;> tauto

/-- Every call `stepKick` emits targets `c` and respects the preset
filter. -/
theorem stepKick_calls (k : KickCfg) (okK : Nat → Bool) (p : Policy)
    (c : Nat) (enK : Finset Nat) (s : State) :
    ∀ call ∈ (stepKick k okK p c enK s).2,
      call.cpu = c ∧ kickPosCall k call := by
  unfold stepKick
  split_ifs with h1 h2 <;> simp [QosCall.cpu, kickPosCall] <;> tauto

/-- `stepKick`'s emission tracks the live kick-handle multiset. -/
theorem stepKick_live (k : KickCfg) (okK : Nat → Bool) (p : Policy)
    (c : Nat) (enK : Finset Nat) (s : State) (m1 : Multiset Nat) :
    (stepKick k okK p c enK s).2.foldl liveStep (m1, s.active_kick.val) =
      (m1, (stepKick k okK p c enK s).1.active_kick.val) := by
  unfold stepKick
  split_ifs <;>
    simp_all [liveStep, Finset.insert_val_of_not_mem]

end CB

namespace CB

/-- One apply iteration leaves deadline and pending sets untouched. -/
theorem applyStep_frame (env : Env) (k : KickCfg) (okM okK : Nat → Bool)
    (enM enK : Finset Nat) (s : State) (c : Nat) :
    (applyStep env k okM okK enM enK s c).expires = s.expires ∧
    (applyStep env k okM okK enM enK s c).pending_max = s.pending_max ∧
    (applyStep env k okM okK enM enK s c).pending_kick = s.pending_kick := by
  unfold applyStep applyOne
  cases hpol : env.pol c with
  | none => simp
  | some p =>
    dsimp only
    by_cases hp : p.cpu = c
    · rw [if_pos hp]
      have h1 := stepMax_frame okM p c enM s
      have h2 := stepKick_frame k okK p c enK (stepMax okM p c enM s).1
      exact ⟨h2.1.trans h1.1, h2.2.1.trans h1.2.1, h2.2.2.1.trans h1.2.2.1⟩
    · simp [hp]

/-- Membership in the max active set after one apply iteration. -/
theorem applyStep_active_max (env : Env) (k : KickCfg)
    (okM okK : Nat → Bool) (enM enK : Finset Nat) (s : State) (c x : Nat) :
    x ∈ (applyStep env k okM okK enM enK s c).active_max ↔
      x ∈ s.active_max ∨
        (x = c ∧ isLeaderB env c = true ∧ c ∈ enM ∧
          c ∉ s.active_max ∧ okM c = true) := by
  unfold applyStep applyOne
  cases hpol : env.pol c with
  | none => simp [isLeaderB, hpol]
  | some p =>
    dsimp only
    by_cases hp : p.cpu = c
    · rw [if_pos hp]
      rw [(stepKick_frame k okK p c enK (stepMax okM p c enM s).1).2.2.2,
        stepMax_active]
      simp [isLeaderB, hpol, hp]
    · simp [isLeaderB, hpol, hp]

/-- Membership in the kick active set after one apply iteration. -/
theorem applyStep_active_kick (env : Env) (k : KickCfg)
    (okM okK : Nat → Bool) (enM enK : Finset Nat) (s : State) (c x : Nat) :
    x ∈ (applyStep env k okM okK enM enK s c).active_kick ↔
      x ∈ s.active_kick ∨
        (x = c ∧ isLeaderB env c = true ∧ c ∈ enK ∧
          0 < kick_khz_for_cpu k c ∧ c ∉ s.active_kick ∧ okK c = true) := by
  unfold applyStep applyOne
  cases hpol : env.pol c with
  | none => simp [isLeaderB, hpol]
  | some p =>
    dsimp only
    by_cases hp : p.cpu = c
    · rw [if_pos hp]
      rw [stepKick_active]
      rw [show (stepMax okM p c enM s).1.active_kick = s.active_kick from
        (stepMax_frame okM p c enM s).2.2.2]
      simp [isLeaderB, hpol, hp]
    · simp [isLeaderB, hpol, hp]

/-- Every call one apply iteration emits targets `c`, which is the
leader of its own policy, and respects the kick preset filter. -/
theorem applyCalls_spec (env : Env) (k : KickCfg) (okM okK : Nat → Bool)
    (enM enK : Finset Nat) (s : State) (c : Nat) :
    ∀ call ∈ applyCalls env k okM okK enM enK s c,
      call.cpu = c ∧ isLeaderB env c = true ∧ kickPosCall k call := by
  unfold applyCalls applyOne
  cases hpol : env.pol c with
  | none => simp
  | some p =>
    dsimp only
    by_cases hp : p.cpu = c
    · rw [if_pos hp]
      intro call hcall
      rcases List.mem_append.mp (by simpa using hcall) with h | h
      · have hm := stepMax_calls (k := k) okM p c enM s call h
        exact ⟨hm.1, by simp [isLeaderB, hpol, hp], hm.2⟩
      · have hk := stepKick_calls k okK p c enK (stepMax okM p c enM s).1 call h
        exact ⟨hk.1, by simp [isLeaderB, hpol, hp], hk.2⟩
    · simp [hp]

/-- The emission of one apply iteration tracks the live handles. -/
theorem applyStep_live (env : Env) (k : KickCfg) (okM okK : Nat → Bool)
    (enM enK : Finset Nat) (s : State) (c : Nat) :
    (applyCalls env k okM okK enM enK s c).foldl liveStep
        (s.active_max.val, s.active_kick.val) =
      ((applyStep env k okM okK enM enK s c).active_max.val,
       (applyStep env k okM okK enM enK s c).active_kick.val) := by
  unfold applyCalls applyStep applyOne
  cases hpol : env.pol c with
  | none => simp
  | some p =>
    dsimp only
    by_cases hp : p.cpu = c
    · rw [if_pos hp]
      dsimp only
      rw [List.nil_append, List.foldl_append]
      rw [show (stepMax okM p c enM s).2.foldl liveStep
            (s.active_max.val, s.active_kick.val) =
          ((stepMax okM p c enM s).1.active_max.val,
           (stepMax okM p c enM s).1.active_kick.val) from by
        rw [(stepMax_frame okM p c enM s).2.2.2]
        exact stepMax_live okM p c enM s s.active_kick.val]
      rw [show (stepKick k okK p c enK (stepMax okM p c enM s).1).2.foldl
            liveStep ((stepMax okM p c enM s).1.active_max.val,
              (stepMax okM p c enM s).1.active_kick.val) =
          ((stepKick k okK p c enK (stepMax okM p c enM s).1).1.active_max.val,
           (stepKick k okK p c enK (stepMax okM p c enM s).1).1.active_kick.val)
          from by
        rw [(stepKick_frame k okK p c enK (stepMax okM p c enM s).1).2.2.2]
        exact stepKick_live k okK p c enK (stepMax okM p c enM s).1
          (stepMax okM p c enM s).1.active_max.val]
    · simp [hp]

end CB

namespace CB

/-- One teardown iteration leaves deadline and pending sets untouched. -/
theorem tdStep_frame (env : Env) (s : State) (c : Nat) :
    (tdStep env s c).expires = s.expires ∧
    (tdStep env s c).pending_max = s.pending_max ∧
    (tdStep env s c).pending_kick = s.pending_kick := by
  unfold tdStep teardownOne
  cases hpol : env.pol c with
  | none => simp
  | some p =>
    dsimp only
    by_cases hp : p.cpu = c
    · rw [if_pos hp]
      split_ifs <;> simp
    · rw [if_neg hp]
      exact ⟨rfl, rfl, rfl⟩

/-- Membership in the max active set after one teardown iteration. -/
theorem tdStep_active_max (env : Env) (s : State) (c x : Nat) :
    x ∈ (tdStep env s c).active_max ↔
      x ∈ s.active_max ∧ ¬(x = c ∧ isLeaderB env c = true) := by
  unfold tdStep teardownOne
  cases hpol : env.pol c with
  | none => simp [isLeaderB, hpol]
  | some p =>
    dsimp only
    by_cases hp : p.cpu = c
    · rw [if_pos hp]
      by_cases hxc : x = c
      · subst hxc
        split_ifs <;> simp_all [Finset.mem_erase, isLeaderB, hpol, hp]
      · split_ifs <;> simp_all [Finset.mem_erase, isLeaderB, hpol, hp]
    · rw [if_neg hp]
      simp [isLeaderB, hpol, hp]

/-- Membership in the kick active set after one teardown iteration. -/
theorem tdStep_active_kick (env : Env) (s : State) (c x : Nat) :
    x ∈ (tdStep env s c).active_kick ↔
      x ∈ s.active_kick ∧ ¬(x = c ∧ isLeaderB env c = true) := by
  unfold tdStep teardownOne
  cases hpol : env.pol c with
  | none => simp [isLeaderB, hpol]
  | some p =>
    dsimp only
    by_cases hp : p.cpu = c
    · rw [if_pos hp]
      by_cases hxc : x = c
      · subst hxc
        split_ifs <;> simp_all [Finset.mem_erase, isLeaderB, hpol, hp]
      · split_ifs <;> simp_all [Finset.mem_erase, isLeaderB, hpol, hp]
    · rw [if_neg hp]
      simp [isLeaderB, hpol, hp]

/-- The calls one teardown iteration emits, explicitly. -/
theorem tdCalls_eq (env : Env) (s : State) (c : Nat) :
    tdCalls env s c =
      (if c ∈ s.active_max ∧ isLeaderB env c = true
        then [QosCall.remMax c] else []) ++
      (if c ∈ s.active_kick ∧ isLeaderB env c = true
        then [QosCall.remKick c] else []) := by
  unfold tdCalls teardownOne
  cases hpol : env.pol c with
  | none => simp [isLeaderB, hpol]
  | some p =>
    dsimp only
    by_cases hp : p.cpu = c
    · rw [if_pos hp]
      split_ifs <;> simp_all [isLeaderB, hpol, hp]
    · rw [if_neg hp]
      simp [isLeaderB, hpol, hp]

/-- Every call one teardown iteration emits targets `c`, a leader. -/
theorem tdCalls_spec (env : Env) (s : State) (c : Nat) :
    ∀ call ∈ tdCalls env s c,
      call.cpu = c ∧ isLeaderB env c = true ∧ kickPosCall k call := by
  rw [tdCalls_eq]
  split_ifs <;> simp_all [QosCall.cpu, kickPosCall]

/-- The emission of one teardown iteration tracks the live handles. -/
theorem tdStep_live (env : Env) (s : State) (c : Nat) :
    (tdCalls env s c).foldl liveStep
        (s.active_max.val, s.active_kick.val) =
      ((tdStep env s c).active_max.val, (tdStep env s c).active_kick.val) := by
  unfold tdCalls tdStep teardownOne
  cases hpol : env.pol c with
  | none => simp
  | some p =>
    dsimp only
    by_cases hp : p.cpu = c
    · rw [if_pos hp]
      split_ifs <;> simp_all [liveStep, Finset.erase_val]
    · rw [if_neg hp]
      simp

end CB

namespace CB

/-- The apply loop leaves deadline and pending sets untouched. -/
theorem applyFold_frame (env : Env) (k : KickCfg) (okM okK : Nat → Bool)
    (enM enK : Finset Nat) (l : List Nat) (s : State) :
    (l.foldl (applyStep env k okM okK enM enK) s).expires = s.expires ∧
    (l.foldl (applyStep env k okM okK enM enK) s).pending_max
      = s.pending_max ∧
    (l.foldl (applyStep env k okM okK enM enK) s).pending_kick
      = s.pending_kick :=
  ⟨foldl_frame _ (fun s2 => s2.expires)
      (fun s2 c => (applyStep_frame env k okM okK enM enK s2 c).1) l s,
   foldl_frame _ (fun s2 => s2.pending_max)
      (fun s2 c => (applyStep_frame env k okM okK enM enK s2 c).2.1) l s,
   foldl_frame _ (fun s2 => s2.pending_kick)
      (fun s2 c => (applyStep_frame env k okM okK enM enK s2 c).2.2) l s⟩

/-- Active bits of a CPU that is not an iterated leader survive
the apply loop unchanged. -/
theorem applyFold_active_frame (env : Env) (k : KickCfg)
    (okM okK : Nat → Bool) (enM enK : Finset Nat) (l : List Nat)
    (s : State) (x : Nat) (hx : ¬(x ∈ l ∧ isLeaderB env x = true)) :
    (x ∈ (l.foldl (applyStep env k okM okK enM enK) s).active_max ↔
      x ∈ s.active_max) ∧
    (x ∈ (l.foldl (applyStep env k okM okK enM enK) s).active_kick ↔
      x ∈ s.active_kick) := by
  constructor
  · refine foldl_frame_iff (applyStep env k okM okK enM enK)
      (fun s2 => x ∈ s2.active_max) l (fun s2 c hc => ?_) s
    dsimp only
    rw [applyStep_active_max]
    constructor
    · rintro (h | ⟨rfl, hl, -⟩)
      · exact h
      · exact absurd ⟨hc, hl⟩ hx
    · exact Or.inl
  · refine foldl_frame_iff (applyStep env k okM okK enM enK)
      (fun s2 => x ∈ s2.active_kick) l (fun s2 c hc => ?_) s
    dsimp only
    rw [applyStep_active_kick]
    constructor
    · rintro (h | ⟨rfl, hl, -⟩)
      · exact h
      · exact absurd ⟨hc, hl⟩ hx
    · exact Or.inl

/-- Every active bit after the apply loop was active before or belongs
to an iterated leader. -/
theorem applyFold_active_of (env : Env) (k : KickCfg)
    (okM okK : Nat → Bool) (enM enK : Finset Nat) (l : List Nat)
    (s : State) (x : Nat) :
    (x ∈ (l.foldl (applyStep env k okM okK enM enK) s).active_max →
      x ∈ s.active_max ∨ (x ∈ l ∧ isLeaderB env x = true)) ∧
    (x ∈ (l.foldl (applyStep env k okM okK enM enK) s).active_kick →
      x ∈ s.active_kick ∨ (x ∈ l ∧ isLeaderB env x = true)) := by
  by_cases hx : x ∈ l ∧ isLeaderB env x = true
  · exact ⟨fun _ => Or.inr hx, fun _ => Or.inr hx⟩
  · have h := applyFold_active_frame env k okM okK enM enK l s x hx
    exact ⟨fun hm => Or.inl (h.1.mp hm), fun hm => Or.inl (h.2.mp hm)⟩

/-- Every call the apply loop emits targets an iterated leader and
respects the kick preset filter. -/
theorem applyFold_calls (env : Env) (k : KickCfg) (okM okK : Nat → Bool)
    (enM enK : Finset Nat) (l : List Nat) (s : State) :
    ∀ call ∈ emits (applyStep env k okM okK enM enK)
        (applyCalls env k okM okK enM enK) s l,
      call.cpu ∈ l ∧ isLeaderB env call.cpu = true ∧ kickPosCall k call := by
  intro call hcall
  obtain ⟨c, hc, hcpu, hl, hpos⟩ := emits_exists _ _
    (fun c call => call.cpu = c ∧ isLeaderB env c = true ∧ kickPosCall k call)
    (fun s2 c => applyCalls_spec env k okM okK enM enK s2 c) l s call hcall
  exact ⟨hcpu ▸ hc, hcpu ▸ hl, hpos⟩

/-- The apply loop's emission tracks the live handles. -/
theorem applyFold_live (env : Env) (k : KickCfg) (okM okK : Nat → Bool)
    (enM enK : Finset Nat) (l : List Nat) (s : State) :
    (emits (applyStep env k okM okK enM enK)
        (applyCalls env k okM okK enM enK) s l).foldl liveStep
      (s.active_max.val, s.active_kick.val) =
    ((l.foldl (applyStep env k okM okK enM enK) s).active_max.val,
     (l.foldl (applyStep env k okM okK enM enK) s).active_kick.val) :=
  emits_foldl_rel _ _ (fun s2 => (s2.active_max.val, s2.active_kick.val))
    liveStep (fun s2 c => applyStep_live env k okM okK enM enK s2 c) l s

/-- The teardown loop leaves deadline and pending sets untouched. -/
theorem tdFold_frame (env : Env) (l : List Nat) (s : State) :
    (l.foldl (tdStep env) s).expires = s.expires ∧
    (l.foldl (tdStep env) s).pending_max = s.pending_max ∧
    (l.foldl (tdStep env) s).pending_kick = s.pending_kick :=
  ⟨foldl_frame _ (fun s2 => s2.expires)
      (fun s2 c => (tdStep_frame env s2 c).1) l s,
   foldl_frame _ (fun s2 => s2.pending_max)
      (fun s2 c => (tdStep_frame env s2 c).2.1) l s,
   foldl_frame _ (fun s2 => s2.pending_kick)
      (fun s2 c => (tdStep_frame env s2 c).2.2) l s⟩

/-- Membership in the active sets after the teardown loop: exactly the
previously active CPUs that are not iterated leaders. -/
theorem tdFold_active (env : Env) (l : List Nat) (s : State) (x : Nat) :
    (x ∈ (l.foldl (tdStep env) s).active_max ↔
      x ∈ s.active_max ∧ ¬(x ∈ l ∧ isLeaderB env x = true)) ∧
    (x ∈ (l.foldl (tdStep env) s).active_kick ↔
      x ∈ s.active_kick ∧ ¬(x ∈ l ∧ isLeaderB env x = true)) := by
  induction l generalizing s with
  | nil => simp
  | cons c t ih =>
    rw [List.foldl_cons]
    constructor
    · rw [(ih (tdStep env s c)).1, tdStep_active_max]
      by_cases hxc : x = c
      · subst hxc
        simp [List.mem_cons]
        tauto
      · simp [List.mem_cons, hxc]
    · rw [(ih (tdStep env s c)).2, tdStep_active_kick]
      by_cases hxc : x = c
      · subst hxc
        simp [List.mem_cons]
        tauto
      · simp [List.mem_cons, hxc]

/-- Every call the teardown loop emits targets an iterated leader. -/
theorem tdFold_calls (env : Env) (l : List Nat) (s : State) :
    ∀ call ∈ emits (tdStep env) (tdCalls env) s l,
      call.cpu ∈ l ∧ isLeaderB env call.cpu = true ∧ kickPosCall k call := by
  intro call hcall
  obtain ⟨c, hc, hcpu, hl, hpos⟩ := emits_exists _ _
    (fun c call => call.cpu = c ∧ isLeaderB env c = true ∧ kickPosCall k call)
    (fun s2 c => tdCalls_spec env s2 c) l s call hcall
  exact ⟨hcpu ▸ hc, hcpu ▸ hl, hpos⟩

/-- The teardown loop's emission tracks the live handles. -/
theorem tdFold_live (env : Env) (l : List Nat) (s : State) :
    (emits (tdStep env) (tdCalls env) s l).foldl liveStep
      (s.active_max.val, s.active_kick.val) =
    ((l.foldl (tdStep env) s).active_max.val,
     (l.foldl (tdStep env) s).active_kick.val) :=
  emits_foldl_rel _ _ (fun s2 => (s2.active_max.val, s2.active_kick.val))
    liveStep (fun s2 c => tdStep_live env s2 c) l s

/-- Each previously active iterated leader receives exactly one remove
call of each kind it was active for; nothing else receives any. -/
theorem tdFold_count (env : Env) (l : List Nat) (s : State) (x : Nat)
    (hnd : l.Nodup) :
    ((emits (tdStep env) (tdCalls env) s l).count (QosCall.remMax x) =
      if x ∈ s.active_max ∧ x ∈ l ∧ isLeaderB env x = true
        then 1 else 0) ∧
    ((emits (tdStep env) (tdCalls env) s l).count (QosCall.remKick x) =
      if x ∈ s.active_kick ∧ x ∈ l ∧ isLeaderB env x = true
        then 1 else 0) := by
  induction l generalizing s with
  | nil => simp [emits]
  | cons c t ih =>
    obtain ⟨hct, hndt⟩ := List.nodup_cons.mp hnd
    have IH := ih (tdStep env s c) hndt
    simp only [emits, List.count_append]
    rw [IH.1, IH.2, tdCalls_eq]
    have hmM := tdStep_active_max env s c x
    have hmK := tdStep_active_kick env s c x
    by_cases hxc : x = c
    · subst hxc
      have hxt : x ∉ t := hct
      constructor
      · split_ifs <;> simp_all [List.count_append, List.mem_cons]
      · split_ifs <;> simp_all [List.count_append, List.mem_cons]
    · constructor
      · split_ifs <;>
          simp_all [List.count_append, List.mem_cons, Ne.symm hxc]
      · split_ifs <;>
          simp_all [List.count_append, List.mem_cons, Ne.symm hxc]

end CB

namespace CB

/-- Unfolding eligibility into its two conjuncts. -/
theorem eligibleB_iff (env : Env) (c : Nat) :
    eligibleB env c = true ↔ c ∈ env.online ∧ isLeaderB env c = true := by
  unfold eligibleB
  simp

/-- State effect of the policy-removal notifier: all four bitmaps lose
exactly the departed leader, the deadline is untouched. -/
theorem notifier_state (L : Nat) (s : State) :
    (boost_policy_notifier L s).1.active_max = s.active_max.erase L ∧
    (boost_policy_notifier L s).1.active_kick = s.active_kick.erase L ∧
    (boost_policy_notifier L s).1.pending_max = s.pending_max.erase L ∧
    (boost_policy_notifier L s).1.pending_kick = s.pending_kick.erase L ∧
    (boost_policy_notifier L s).1.expires = s.expires := by
  unfold boost_policy_notifier
  dsimp only
  split_ifs <;> simp_all [Finset.erase_eq_of_not_mem]

/-- Calls of the policy-removal notifier: one remove per kind the
departed leader was active for, nothing else. -/
theorem notifier_calls (L : Nat) (s : State) :
    (boost_policy_notifier L s).2 =
      (if L ∈ s.active_max then [QosCall.remMax L] else []) ++
      (if L ∈ s.active_kick then [QosCall.remKick L] else []) := by
  unfold boost_policy_notifier
  dsimp only
  split_ifs <;> simp_all

/-- The notifier's emission tracks the live handles. -/
theorem notifier_live (L : Nat) (s : State) :
    (boost_policy_notifier L s).2.foldl liveStep
        (s.active_max.val, s.active_kick.val) =
      ((boost_policy_notifier L s).1.active_max.val,
       (boost_policy_notifier L s).1.active_kick.val) := by
  rw [notifier_calls, (notifier_state L s).1, (notifier_state L s).2.1]
  by_cases h1 : L ∈ s.active_max <;> by_cases h2 : L ∈ s.active_kick <;>
    simp [h1, h2, liveStep, Finset.erase_val, Finset.erase_eq_of_not_mem]

/-- Removing the policy led by `L` does not change leadership of any
other CPU. -/
theorem envRemove_leader (env : Env) (L c : Nat) (hne : c ≠ L) :
    isLeaderB (envRemove env L) c = isLeaderB env c := by
  unfold isLeaderB envRemove
  dsimp only
  cases hpol : env.pol c with
  | none => rfl
  | some q =>
    by_cases hq : q.cpu = L
    · simp [hq, Ne.symm hne]
    · simp [hq]

/-- After removing the policy led by `L`, no surviving policy names `L`
as its leader. -/
theorem envRemove_avoids (env : Env) (L : Nat) :
    avoids (envRemove env L) L := by
  intro c p hp
  unfold envRemove at hp
  dsimp only at hp
  cases hpol : env.pol c with
  | none =>
    rw [hpol] at hp
    dsimp only at hp
    cases hp
  | some q =>
    rw [hpol] at hp
    dsimp only at hp
    by_cases hq : q.cpu = L
    · rw [if_pos hq] at hp; cases hp
    · rw [if_neg hq] at hp
      cases hp
      exact hq

/-- A freshly created policy with a new leader does not change
leadership or online membership of previously governed CPUs. -/
theorem envAddDom_leader (env : Env) (L : Nat) (f : Int)
    (members : List Nat)
    (hfresh : ∀ c ∈ members, env.pol c = none ∧ c ∉ env.online)
    (c : Nat) (hc : isLeaderB env c = true) :
    isLeaderB (envAddDom env L f members) c = true := by
  unfold isLeaderB envAddDom at *
  dsimp only at *
  cases hpol : env.pol c with
  | none => rw [hpol] at hc; cases hc
  | some q =>
    have hcm : c ∉ members := fun hm => by
      have := (hfresh c hm).1
      rw [this] at hpol
      cases hpol
    rw [hpol] at hc
    simp [hcm, hpol]
    simpa using hc

end CB

namespace CB

/-- The invariant holds at module init. -/
theorem Inv_init (k : KickCfg) (n : Nat) : Inv k (envEmpty n) initState [] :=
  ⟨List.nodup_nil, fun c hc => absurd hc (Finset.not_mem_empty c),
   fun c hc => absurd hc (Finset.not_mem_empty c), rfl,
   fun call hc => absurd hc (List.not_mem_nil call)⟩

/-- `cpu_boost_max` preserves the invariant: it only touches the
deadline and the pending set. -/
theorem Inv_request_max (k : KickCfg) (env : Env) (HZ now d : Nat)
    (s : State) (tr : List QosCall) (h : Inv k env s tr) :
    Inv k env (cpu_boost_max env HZ now d s).1 tr := h

/-- `cpu_boost_kick` preserves the invariant. -/
theorem Inv_request_kick (k : KickCfg) (env : Env) (HZ now d : Nat)
    (s : State) (tr : List QosCall) (h : Inv k env s tr) :
    Inv k env (cpu_boost_kick env HZ now d s).1 tr := h

/-- One reconciler pass preserves the invariant. -/
theorem Inv_worker (k : KickCfg) (env : Env) (s : State)
    (tr : List QosCall) (okM okK : Nat → Bool) (now : Nat)
    (h : Inv k env s tr) :
    Inv k env (cpu_boost_worker env k okM okK now s).1
      (tr ++ (cpu_boost_worker env k okM okK now s).2.1) := by
  obtain ⟨h1, h2, h3, h4, h5⟩ := h
  unfold cpu_boost_worker
  dsimp only [drain]
  rw [applyPass_eq]
  dsimp only
  rw [teardownPass_eq]
  dsimp only
  have hAM : ∀ c ∈ (env.online.foldl
      (applyStep env k okM okK s.pending_max s.pending_kick)
      { s with pending_max := ∅, pending_kick := ∅ }).active_max,
      eligibleB env c = true := by
    intro c hc
    rcases (applyFold_active_of env k okM okK s.pending_max s.pending_kick
        env.online _ c).1 hc with hin | ⟨honl, hlead⟩
    · exact h2 c hin
    · exact (eligibleB_iff env c).mpr ⟨honl, hlead⟩
  have hAK : ∀ c ∈ (env.online.foldl
      (applyStep env k okM okK s.pending_max s.pending_kick)
      { s with pending_max := ∅, pending_kick := ∅ }).active_kick,
      eligibleB env c = true := by
    intro c hc
    rcases (applyFold_active_of env k okM okK s.pending_max s.pending_kick
        env.online _ c).2 hc with hin | ⟨honl, hlead⟩
    · exact h3 c hin
    · exact (eligibleB_iff env c).mpr ⟨honl, hlead⟩
  have hlivA : liveHandles (tr ++ emits
      (applyStep env k okM okK s.pending_max s.pending_kick)
      (applyCalls env k okM okK s.pending_max s.pending_kick)
      { s with pending_max := ∅, pending_kick := ∅ } env.online) =
      ((env.online.foldl
        (applyStep env k okM okK s.pending_max s.pending_kick)
        { s with pending_max := ∅, pending_kick := ∅ }).active_max.val,
       (env.online.foldl
        (applyStep env k okM okK s.pending_max s.pending_kick)
        { s with pending_max := ∅, pending_kick := ∅ }).active_kick.val) := by
    unfold liveHandles at h4 ⊢
    rw [List.foldl_append, h4]
    exact applyFold_live env k okM okK s.pending_max s.pending_kick
      env.online { s with pending_max := ∅, pending_kick := ∅ }
  have hkickA : ∀ call ∈ tr ++ emits
      (applyStep env k okM okK s.pending_max s.pending_kick)
      (applyCalls env k okM okK s.pending_max s.pending_kick)
      { s with pending_max := ∅, pending_kick := ∅ } env.online,
      kickPosCall k call := by
    intro call hc
    rcases List.mem_append.mp hc with hin | hin
    · exact h5 call hin
    · exact (applyFold_calls env k okM okK s.pending_max s.pending_kick
        env.online _ call hin).2.2
  split_ifs with hexp
  · refine ⟨h1, ?_, ?_, ?_, ?_⟩
    · intro c hc
      exact hAM c ((tdFold_active env env.online _ c).1.mp hc).1
    · intro c hc
      exact hAK c ((tdFold_active env env.online _ c).2.mp hc).1
    · show liveHandles (tr ++ (_ ++ _)) = _
      unfold liveHandles at hlivA ⊢
      rw [← List.append_assoc, List.foldl_append, hlivA]
      exact tdFold_live env env.online _
    · intro call hc
      rcases List.mem_append.mp hc with hin | hin
      · exact h5 call hin
      · rcases List.mem_append.mp hin with hin2 | hin2
        · exact (applyFold_calls env k okM okK s.pending_max
            s.pending_kick env.online _ call hin2).2.2
        · exact (tdFold_calls (k := k) env env.online _ call hin2).2.2
  · exact ⟨h1, hAM, hAK, hlivA, hkickA⟩

/-- A domain-creation event preserves the invariant. -/
theorem Inv_addDom (k : KickCfg) (env : Env) (s : State)
    (tr : List QosCall) (L : Nat) (f : Int) (members : List Nat)
    (hnd2 : members.Nodup)
    (hfresh : ∀ c ∈ members, env.pol c = none ∧ c ∉ env.online)
    (h : Inv k env s tr) :
    Inv k (envAddDom env L f members) s tr := by
  obtain ⟨h1, h2, h3, h4, h5⟩ := h
  refine ⟨?_, ?_, ?_, h4, h5⟩
  · rw [show (envAddDom env L f members).online
        = env.online ++ members from rfl, List.nodup_append]
    exact ⟨h1, hnd2, fun a ha hb => (hfresh a hb).2 ha⟩
  · intro c hc
    have he := (eligibleB_iff env c).mp (h2 c hc)
    rw [eligibleB_iff]
    exact ⟨List.mem_append.mpr (Or.inl he.1),
      envAddDom_leader env L f members hfresh c he.2⟩
  · intro c hc
    have he := (eligibleB_iff env c).mp (h3 c hc)
    rw [eligibleB_iff]
    exact ⟨List.mem_append.mpr (Or.inl he.1),
      envAddDom_leader env L f members hfresh c he.2⟩

/-- A domain-removal event (notifier included) preserves the
invariant. -/
theorem Inv_removeDom (k : KickCfg) (env : Env) (s : State)
    (tr : List QosCall) (L : Nat) (h : Inv k env s tr) :
    Inv k (envRemove env L) (boost_policy_notifier L s).1
      (tr ++ (boost_policy_notifier L s).2) := by
  obtain ⟨h1, h2, h3, h4, h5⟩ := h
  have hns := notifier_state L s
  refine ⟨h1, ?_, ?_, ?_, ?_⟩
  · intro c hc
    rw [hns.1] at hc
    obtain ⟨hcne, hcs⟩ := Finset.mem_erase.mp hc
    have he := (eligibleB_iff env c).mp (h2 c hcs)
    rw [eligibleB_iff]
    exact ⟨he.1, (envRemove_leader env L c hcne).trans he.2⟩
  · intro c hc
    rw [hns.2.1] at hc
    obtain ⟨hcne, hcs⟩ := Finset.mem_erase.mp hc
    have he := (eligibleB_iff env c).mp (h3 c hcs)
    rw [eligibleB_iff]
    exact ⟨he.1, (envRemove_leader env L c hcne).trans he.2⟩
  · unfold liveHandles at h4 ⊢
    rw [List.foldl_append, h4]
    exact notifier_live L s
  · intro call hc
    rcases List.mem_append.mp hc with hin | hin
    · exact h5 call hin
    · have hrem : call = QosCall.remMax L ∨ call = QosCall.remKick L := by
        rw [notifier_calls] at hin
        rcases List.mem_append.mp hin with h6 | h6 <;> split_ifs at h6 <;>
          simp_all
      rcases hrem with rfl | rfl <;> exact trivial

/-- The master invariant holds in every reachable configuration. -/
theorem reachable_inv (k : KickCfg) (HZ : Nat) (env : Env) (s : State)
    (tr : List QosCall) (h : Reachable k HZ env s tr) : Inv k env s tr := by
  induction h with
  | init n => exact Inv_init k n
  | boostMax env s tr now d h ih =>
    exact Inv_request_max k env HZ now d s tr ih
  | boostKick env s tr now d h ih =>
    exact Inv_request_kick k env HZ now d s tr ih
  | worker env s tr okM okK now h ih =>
    exact Inv_worker k env s tr okM okK now ih
  | addDom env s tr L f members h hmem hnd hfresh ih =>
    exact Inv_addDom k env s tr L f members hnd hfresh ih
  | removeDom env s tr L p h hp hLp ih =>
    exact Inv_removeDom k env s tr L ih

end CB

/-- Triple version of `foldl_emits`: a fold body that transitions state
and appends to two emission lists splits into three independent folds. -/
theorem foldl_emits3 {σ α β γ : Type} (g : σ → α → σ)
    (h1 : σ → α → List β) (h2 : σ → α → List γ)
    (F : σ × List β × List γ → α → σ × List β × List γ)
    (hF : ∀ s cs vs c,
      F (s, cs, vs) c = (g s c, cs ++ h1 s c, vs ++ h2 s c)) :
    ∀ (l : List α) (s : σ) (cs : List β) (vs : List γ),
      l.foldl F (s, cs, vs) =
        (l.foldl g s, cs ++ emits g h1 s l, vs ++ emits g h2 s l) := by
  intro l
  induction l with
  | nil => intro s cs vs; simp [emits]
  | cons c t ih =>
    intro s cs vs
    rw [List.foldl_cons, List.foldl_cons, hF, ih]
    simp [emits]

namespace DC

/-- `applyVotesOne` in state-and-emissions shape. -/
theorem applyVotesOne_shape (P : Presets) (regOk : Hw → Bool)
    (bounds : Hw → Option (Nat × Nat)) (mask : Finset Hw) (clear : Bool)
    (acc : State × List Call × List (Hw × Nat)) (hw : Hw) :
    applyVotesOne P regOk bounds mask clear acc hw =
      (avStep P regOk bounds mask clear acc.1 hw,
       acc.2.1 ++ avCalls P regOk bounds mask clear acc.1 hw,
       acc.2.2 ++ avVotes P regOk bounds mask clear acc.1 hw) := by
  obtain ⟨s, cs, vs⟩ := acc
  unfold avStep avCalls avVotes applyVotesOne ensure_voter_registered
  dsimp only
  by_cases hm : hw ∈ mask <;>
  by_cases hreg : hw ∈ s.registered <;>
  by_cases hok : regOk hw = true <;>
  by_cases hcl : clear = true <;>
  cases hcb : clamp_to_hw_bounds bounds hw (preset_for_hw P hw) <;>
  simp_all <;>
  by_cases hz : preset_for_hw P hw = 0 <;>
  simp_all

/-- `applyVotesMaxOne` in state-and-emissions shape. -/
theorem applyVotesMaxOne_shape (regOk : Hw → Bool)
    (bounds : Hw → Option (Nat × Nat)) (mask : Finset Hw) (clear : Bool)
    (acc : State × List Call × List (Hw × Nat)) (hw : Hw) :
    applyVotesMaxOne regOk bounds mask clear acc hw =
      (avmStep regOk bounds mask clear acc.1 hw,
       acc.2.1 ++ avmCalls regOk bounds mask clear acc.1 hw,
       acc.2.2 ++ avmVotes regOk bounds mask clear acc.1 hw) := by
  obtain ⟨s, cs, vs⟩ := acc
  unfold avmStep avmCalls avmVotes applyVotesMaxOne ensure_voter_registered
  dsimp only
  by_cases hm : hw ∈ mask <;>
  by_cases hreg : hw ∈ s.registered <;>
  by_cases hok : regOk hw = true <;>
  by_cases hcl : clear = true <;>
  cases hcb : bounds hw <;>
  simp_all

end DC

namespace DC

/-- One `apply_votes` iteration touches only the registered bitmap. -/
theorem avStep_frame (P : Presets) (regOk : Hw → Bool)
    (bounds : Hw → Option (Nat × Nat)) (mask : Finset Hw) (clear : Bool)
    (s : State) (hw : Hw) :
    (avStep P regOk bounds mask clear s hw).active = s.active ∧
    (avStep P regOk bounds mask clear s hw).active_max = s.active_max ∧
    (avStep P regOk bounds mask clear s hw).pending = s.pending ∧
    (avStep P regOk bounds mask clear s hw).pending_max = s.pending_max ∧
    (avStep P regOk bounds mask clear s hw).expires = s.expires := by
  unfold avStep applyVotesOne ensure_voter_registered
  dsimp only
  by_cases hm : hw ∈ mask <;> by_cases hreg : hw ∈ s.registered <;>
  by_cases hok : regOk hw = true <;> by_cases hcl : clear = true <;>
  cases hcb : clamp_to_hw_bounds bounds hw (preset_for_hw P hw) <;>
  simp_all <;> by_cases hz : preset_for_hw P hw = 0 <;> simp_all

/-- Membership in the registered bitmap after one `apply_votes`
iteration. -/
theorem avStep_registered (P : Presets) (regOk : Hw → Bool)
    (bounds : Hw → Option (Nat × Nat)) (mask : Finset Hw) (clear : Bool)
    (s : State) (hw x : Hw) :
    x ∈ (avStep P regOk bounds mask clear s hw).registered ↔
      x ∈ s.registered ∨
        (x = hw ∧ hw ∈ mask ∧ hw ∉ s.registered ∧ regOk hw = true) := by
  unfold avStep applyVotesOne ensure_voter_registered
  dsimp only
  by_cases hm : hw ∈ mask <;> by_cases hreg : hw ∈ s.registered <;>
  by_cases hok : regOk hw = true <;> by_cases hcl : clear = true <;>
  cases hcb : clamp_to_hw_bounds bounds hw (preset_for_hw P hw) <;>
  simp_all [Finset.mem_insert] <;>
  by_cases hz : preset_for_hw P hw = 0 <;>
  (try simp_all [Finset.mem_insert]) <;> tauto

/-- The registration calls of one `apply_votes` iteration track the
registered-voter multiset. -/
theorem avStep_reg (P : Presets) (regOk : Hw → Bool)
    (bounds : Hw → Option (Nat × Nat)) (mask : Finset Hw) (clear : Bool)
    (s : State) (hw : Hw) :
    (avCalls P regOk bounds mask clear s hw).foldl regStep
        s.registered.val =
      (avStep P regOk bounds mask clear s hw).registered.val := by
  unfold avStep avCalls applyVotesOne ensure_voter_registered
  dsimp only
  by_cases hm : hw ∈ mask <;> by_cases hreg : hw ∈ s.registered <;>
  by_cases hok : regOk hw = true <;> by_cases hcl : clear = true <;>
  cases hcb : clamp_to_hw_bounds bounds hw (preset_for_hw P hw) <;>
  simp_all [regStep, Finset.insert_val_of_not_mem] <;>
  by_cases hz : preset_for_hw P hw = 0 <;>
  simp_all [regStep, Finset.insert_val_of_not_mem]

/-- Every vote-batch entry of one `apply_votes` iteration targets a
masked hardware type. -/
theorem avVotes_mask (P : Presets) (regOk : Hw → Bool)
    (bounds : Hw → Option (Nat × Nat)) (mask : Finset Hw) (clear : Bool)
    (s : State) (hw : Hw) :
    ∀ v ∈ avVotes P regOk bounds mask clear s hw, v.1 ∈ mask := by
  unfold avVotes applyVotesOne ensure_voter_registered
  dsimp only
  by_cases hm : hw ∈ mask <;> by_cases hreg : hw ∈ s.registered <;>
  by_cases hok : regOk hw = true <;> by_cases hcl : clear = true <;>
  cases hcb : clamp_to_hw_bounds bounds hw (preset_for_hw P hw) <;>
  simp_all <;> by_cases hz : preset_for_hw P hw = 0 <;> simp_all

/-- One `apply_votes` iteration emits only registration calls. -/
theorem avCalls_reg (P : Presets) (regOk : Hw → Bool)
    (bounds : Hw → Option (Nat × Nat)) (mask : Finset Hw) (clear : Bool)
    (s : State) (hw : Hw) :
    ∀ call ∈ avCalls P regOk bounds mask clear s hw,
      ∃ hw2 ok, call = Call.register hw2 ok := by
  unfold avCalls applyVotesOne ensure_voter_registered
  dsimp only
  by_cases hm : hw ∈ mask <;> by_cases hreg : hw ∈ s.registered <;>
  by_cases hok : regOk hw = true <;> by_cases hcl : clear = true <;>
  cases hcb : clamp_to_hw_bounds bounds hw (preset_for_hw P hw) <;>
  simp_all <;> by_cases hz : preset_for_hw P hw = 0 <;> simp_all

/-- Zero-vote count of one clearing `apply_votes` iteration. -/
theorem avVotes_clear_count (P : Presets) (regOk : Hw → Bool)
    (bounds : Hw → Option (Nat × Nat)) (mask : Finset Hw)
    (s : State) (hw x : Hw) :
    (avVotes P regOk bounds mask true s hw).count (x, 0) =
      if x = hw ∧ hw ∈ mask ∧ (hw ∈ s.registered ∨ regOk hw = true)
      then 1 else 0 := by
  unfold avVotes applyVotesOne ensure_voter_registered
  dsimp only
  by_cases hm : hw ∈ mask <;> by_cases hreg : hw ∈ s.registered <;>
  by_cases hok : regOk hw = true <;> by_cases hx : x = hw <;>
  simp_all [List.count_cons, Prod.mk.injEq]

end DC

namespace DC

/-- One `apply_votes_max` iteration touches only the registered
bitmap. -/
theorem avmStep_frame (regOk : Hw → Bool)
    (bounds : Hw → Option (Nat × Nat)) (mask : Finset Hw) (clear : Bool)
    (s : State) (hw : Hw) :
    (avmStep regOk bounds mask clear s hw).active = s.active ∧
    (avmStep regOk bounds mask clear s hw).active_max = s.active_max ∧
    (avmStep regOk bounds mask clear s hw).pending = s.pending ∧
    (avmStep regOk bounds mask clear s hw).pending_max = s.pending_max ∧
    (avmStep regOk bounds mask clear s hw).expires = s.expires := by
  unfold avmStep applyVotesMaxOne ensure_voter_registered
  dsimp only
  by_cases hm : hw ∈ mask <;> by_cases hreg : hw ∈ s.registered <;>
  by_cases hok : regOk hw = true <;> by_cases hcl : clear = true <;>
  cases hcb : bounds hw <;> simp_all

/-- Membership in the registered bitmap after one `apply_votes_max`
iteration. -/
theorem avmStep_registered (regOk : Hw → Bool)
    (bounds : Hw → Option (Nat × Nat)) (mask : Finset Hw) (clear : Bool)
    (s : State) (hw x : Hw) :
    x ∈ (avmStep regOk bounds mask clear s hw).registered ↔
      x ∈ s.registered ∨
        (x = hw ∧ hw ∈ mask ∧ hw ∉ s.registered ∧ regOk hw = true) := by
  unfold avmStep applyVotesMaxOne ensure_voter_registered
  dsimp only
  by_cases hm : hw ∈ mask <;> by_cases hreg : hw ∈ s.registered <;>
  by_cases hok : regOk hw = true <;> by_cases hcl : clear = true <;>
  cases hcb : bounds hw <;>
  (try simp_all [Finset.mem_insert]) <;> tauto

/-- The registration calls of one `apply_votes_max` iteration track the
registered-voter multiset. -/
theorem avmStep_reg (regOk : Hw → Bool)
    (bounds : Hw → Option (Nat × Nat)) (mask : Finset Hw) (clear : Bool)
    (s : State) (hw : Hw) :
    (avmCalls regOk bounds mask clear s hw).foldl regStep
        s.registered.val =
      (avmStep regOk bounds mask clear s hw).registered.val := by
  unfold avmStep avmCalls applyVotesMaxOne ensure_voter_registered
  dsimp only
  by_cases hm : hw ∈ mask <;> by_cases hreg : hw ∈ s.registered <;>
  by_cases hok : regOk hw = true <;> by_cases hcl : clear = true <;>
  cases hcb : bounds hw <;>
  simp_all [regStep, Finset.insert_val_of_not_mem]

/-- Every vote-batch entry of one `apply_votes_max` iteration targets a
masked hardware type. -/
theorem avmVotes_mask (regOk : Hw → Bool)
    (bounds : Hw → Option (Nat × Nat)) (mask : Finset Hw) (clear : Bool)
    (s : State) (hw : Hw) :
    ∀ v ∈ avmVotes regOk bounds mask clear s hw, v.1 ∈ mask := by
  unfold avmVotes applyVotesMaxOne ensure_voter_registered
  dsimp only
  by_cases hm : hw ∈ mask <;> by_cases hreg : hw ∈ s.registered <;>
  by_cases hok : regOk hw = true <;> by_cases hcl : clear = true <;>
  cases hcb : bounds hw <;> simp_all

/-- One `apply_votes_max` iteration emits only registration calls. -/
theorem avmCalls_reg (regOk : Hw → Bool)
    (bounds : Hw → Option (Nat × Nat)) (mask : Finset Hw) (clear : Bool)
    (s : State) (hw : Hw) :
    ∀ call ∈ avmCalls regOk bounds mask clear s hw,
      ∃ hw2 ok, call = Call.register hw2 ok := by
  unfold avmCalls applyVotesMaxOne ensure_voter_registered
  dsimp only
  by_cases hm : hw ∈ mask <;> by_cases hreg : hw ∈ s.registered <;>
  by_cases hok : regOk hw = true <;> by_cases hcl : clear = true <;>
  cases hcb : bounds hw <;> simp_all

/-- Zero-vote count of one clearing `apply_votes_max` iteration. -/
theorem avmVotes_clear_count (regOk : Hw → Bool)
    (bounds : Hw → Option (Nat × Nat)) (mask : Finset Hw)
    (s : State) (hw x : Hw) :
    (avmVotes regOk bounds mask true s hw).count (x, 0) =
      if x = hw ∧ hw ∈ mask ∧ (hw ∈ s.registered ∨ regOk hw = true)
      then 1 else 0 := by
  unfold avmVotes applyVotesMaxOne ensure_voter_registered
  dsimp only
  by_cases hm : hw ∈ mask <;> by_cases hreg : hw ∈ s.registered <;>
  by_cases hok : regOk hw = true <;> by_cases hx : x = hw <;>
  simp_all [List.count_cons, Prod.mk.injEq]

end DC

namespace DC

/-- Every hardware type is in `boost_hw_list`. -/
theorem mem_boost_hw_list (hw : Hw) : hw ∈ boost_hw_list := by
  cases hw <;> simp [boost_hw_list]

/-- `boost_hw_list` enumerates without repetition. -/
theorem boost_hw_list_nodup : boost_hw_list.Nodup := by
  decide

/-- Membership in the kick mask is exactly a nonzero preset. -/
theorem mem_kickMask (P : Presets) (hw : Hw) :
    hw ∈ kickMask P ↔ preset_for_hw P hw ≠ 0 := by
  unfold kickMask
  rw [List.mem_toFinset, List.mem_filter]
  simp [mem_boost_hw_list]

/-- `apply_votes` split into its state fold, registration calls and the
optional batched vote call. -/
theorem apply_votes_eq (P : Presets) (regOk : Hw → Bool)
    (bounds : Hw → Option (Nat × Nat)) (mask : Finset Hw) (clear : Bool)
    (s : State) :
    apply_votes P regOk bounds mask clear s =
      (boost_hw_list.foldl (avStep P regOk bounds mask clear) s,
       emits (avStep P regOk bounds mask clear)
           (avCalls P regOk bounds mask clear) s boost_hw_list ++
         (if emits (avStep P regOk bounds mask clear)
              (avVotes P regOk bounds mask clear) s boost_hw_list = []
          then []
          else [Call.updateVotes Kind.kick
            (emits (avStep P regOk bounds mask clear)
              (avVotes P regOk bounds mask clear) s boost_hw_list)])) := by
  unfold apply_votes
  rw [foldl_emits3 _ _ _ _
    (fun s2 cs vs c =>
      applyVotesOne_shape P regOk bounds mask clear (s2, cs, vs) c)
    boost_hw_list s [] []]
  dsimp only
  simp only [List.nil_append]
  split_ifs <;> simp

/-- `apply_votes_max` split the same way. -/
theorem apply_votes_max_eq (regOk : Hw → Bool)
    (bounds : Hw → Option (Nat × Nat)) (mask : Finset Hw) (clear : Bool)
    (s : State) :
    apply_votes_max regOk bounds mask clear s =
      (boost_hw_list.foldl (avmStep regOk bounds mask clear) s,
       emits (avmStep regOk bounds mask clear)
           (avmCalls regOk bounds mask clear) s boost_hw_list ++
         (if emits (avmStep regOk bounds mask clear)
              (avmVotes regOk bounds mask clear) s boost_hw_list = []
          then []
          else [Call.updateVotes Kind.kmax
            (emits (avmStep regOk bounds mask clear)
              (avmVotes regOk bounds mask clear) s boost_hw_list)])) := by
  unfold apply_votes_max
  rw [foldl_emits3 _ _ _ _
    (fun s2 cs vs c =>
      applyVotesMaxOne_shape regOk bounds mask clear (s2, cs, vs) c)
    boost_hw_list s [] []]
  dsimp only
  simp only [List.nil_append]
  split_ifs <;> simp

/-- The `apply_votes` state fold touches only the registered bitmap. -/
theorem votesFold_frame (P : Presets) (regOk : Hw → Bool)
    (bounds : Hw → Option (Nat × Nat)) (mask : Finset Hw) (clear : Bool)
    (l : List Hw) (s : State) :
    (l.foldl (avStep P regOk bounds mask clear) s).active = s.active ∧
    (l.foldl (avStep P regOk bounds mask clear) s).active_max
      = s.active_max ∧
    (l.foldl (avStep P regOk bounds mask clear) s).pending = s.pending ∧
    (l.foldl (avStep P regOk bounds mask clear) s).pending_max
      = s.pending_max ∧
    (l.foldl (avStep P regOk bounds mask clear) s).expires = s.expires :=
  ⟨foldl_frame _ (fun s2 => s2.active)
      (fun s2 c => (avStep_frame P regOk bounds mask clear s2 c).1) l s,
   foldl_frame _ (fun s2 => s2.active_max)
      (fun s2 c => (avStep_frame P regOk bounds mask clear s2 c).2.1) l s,
   foldl_frame _ (fun s2 => s2.pending)
      (fun s2 c => (avStep_frame P regOk bounds mask clear s2 c).2.2.1) l s,
   foldl_frame _ (fun s2 => s2.pending_max)
      (fun s2 c => (avStep_frame P regOk bounds mask clear s2 c).2.2.2.1) l s,
   foldl_frame _ (fun s2 => s2.expires)
      (fun s2 c => (avStep_frame P regOk bounds mask clear s2 c).2.2.2.2) l s⟩

/-- The `apply_votes_max` state fold touches only the registered
bitmap. -/
theorem votesMaxFold_frame (regOk : Hw → Bool)
    (bounds : Hw → Option (Nat × Nat)) (mask : Finset Hw) (clear : Bool)
    (l : List Hw) (s : State) :
    (l.foldl (avmStep regOk bounds mask clear) s).active = s.active ∧
    (l.foldl (avmStep regOk bounds mask clear) s).active_max
      = s.active_max ∧
    (l.foldl (avmStep regOk bounds mask clear) s).pending = s.pending ∧
    (l.foldl (avmStep regOk bounds mask clear) s).pending_max
      = s.pending_max ∧
    (l.foldl (avmStep regOk bounds mask clear) s).expires = s.expires :=
  ⟨foldl_frame _ (fun s2 => s2.active)
      (fun s2 c => (avmStep_frame regOk bounds mask clear s2 c).1) l s,
   foldl_frame _ (fun s2 => s2.active_max)
      (fun s2 c => (avmStep_frame regOk bounds mask clear s2 c).2.1) l s,
   foldl_frame _ (fun s2 => s2.pending)
      (fun s2 c => (avmStep_frame regOk bounds mask clear s2 c).2.2.1) l s,
   foldl_frame _ (fun s2 => s2.pending_max)
      (fun s2 c => (avmStep_frame regOk bounds mask clear s2 c).2.2.2.1) l s,
   foldl_frame _ (fun s2 => s2.expires)
      (fun s2 c => (avmStep_frame regOk bounds mask clear s2 c).2.2.2.2) l s⟩

/-- The registration calls of the `apply_votes` fold track the
registered-voter multiset. -/
theorem votesFold_reg (P : Presets) (regOk : Hw → Bool)
    (bounds : Hw → Option (Nat × Nat)) (mask : Finset Hw) (clear : Bool)
    (l : List Hw) (s : State) :
    (emits (avStep P regOk bounds mask clear)
        (avCalls P regOk bounds mask clear) s l).foldl regStep
      s.registered.val =
    (l.foldl (avStep P regOk bounds mask clear) s).registered.val :=
  emits_foldl_rel _ _ (fun s2 => s2.registered.val) regStep
    (fun s2 c => avStep_reg P regOk bounds mask clear s2 c) l s

/-- Same for `apply_votes_max`. -/
theorem votesMaxFold_reg (regOk : Hw → Bool)
    (bounds : Hw → Option (Nat × Nat)) (mask : Finset Hw) (clear : Bool)
    (l : List Hw) (s : State) :
    (emits (avmStep regOk bounds mask clear)
        (avmCalls regOk bounds mask clear) s l).foldl regStep
      s.registered.val =
    (l.foldl (avmStep regOk bounds mask clear) s).registered.val :=
  emits_foldl_rel _ _ (fun s2 => s2.registered.val) regStep
    (fun s2 c => avmStep_reg regOk bounds mask clear s2 c) l s

/-- Votes collected by the `apply_votes` fold stay inside the mask. -/
theorem votesFold_mask (P : Presets) (regOk : Hw → Bool)
    (bounds : Hw → Option (Nat × Nat)) (mask : Finset Hw) (clear : Bool)
    (l : List Hw) (s : State) :
    ∀ v ∈ emits (avStep P regOk bounds mask clear)
        (avVotes P regOk bounds mask clear) s l, v.1 ∈ mask := by
  intro v hv
  obtain ⟨c, -, hQ⟩ := emits_exists _ _ (fun _ v => v.1 ∈ mask)
    (fun s2 c => avVotes_mask P regOk bounds mask clear s2 c) l s v hv
  exact hQ

/-- Votes collected by the `apply_votes_max` fold stay inside the
mask. -/
theorem votesMaxFold_mask (regOk : Hw → Bool)
    (bounds : Hw → Option (Nat × Nat)) (mask : Finset Hw) (clear : Bool)
    (l : List Hw) (s : State) :
    ∀ v ∈ emits (avmStep regOk bounds mask clear)
        (avmVotes regOk bounds mask clear) s l, v.1 ∈ mask := by
  intro v hv
  obtain ⟨c, -, hQ⟩ := emits_exists _ _ (fun _ v => v.1 ∈ mask)
    (fun s2 c => avmVotes_mask regOk bounds mask clear s2 c) l s v hv
  exact hQ

/-- The `apply_votes` fold emits only registration calls. -/
theorem votesFold_calls_reg (P : Presets) (regOk : Hw → Bool)
    (bounds : Hw → Option (Nat × Nat)) (mask : Finset Hw) (clear : Bool)
    (l : List Hw) (s : State) :
    ∀ call ∈ emits (avStep P regOk bounds mask clear)
        (avCalls P regOk bounds mask clear) s l,
      ∃ hw2 ok, call = Call.register hw2 ok := by
  intro call hcall
  obtain ⟨c, -, hQ⟩ := emits_exists _ _
    (fun _ call => ∃ hw2 ok, call = Call.register hw2 ok)
    (fun s2 c => avCalls_reg P regOk bounds mask clear s2 c) l s call hcall
  exact hQ

/-- The `apply_votes_max` fold emits only registration calls. -/
theorem votesMaxFold_calls_reg (regOk : Hw → Bool)
    (bounds : Hw → Option (Nat × Nat)) (mask : Finset Hw) (clear : Bool)
    (l : List Hw) (s : State) :
    ∀ call ∈ emits (avmStep regOk bounds mask clear)
        (avmCalls regOk bounds mask clear) s l,
      ∃ hw2 ok, call = Call.register hw2 ok := by
  intro call hcall
  obtain ⟨c, -, hQ⟩ := emits_exists _ _
    (fun _ call => ∃ hw2 ok, call = Call.register hw2 ok)
    (fun s2 c => avmCalls_reg regOk bounds mask clear s2 c) l s call hcall
  exact hQ

/-- Registered voters survive the `apply_votes` fold. -/
theorem votesFold_reg_mono (P : Presets) (regOk : Hw → Bool)
    (bounds : Hw → Option (Nat × Nat)) (mask : Finset Hw) (clear : Bool)
    (l : List Hw) (s : State) (x : Hw) (hx : x ∈ s.registered) :
    x ∈ (l.foldl (avStep P regOk bounds mask clear) s).registered :=
  foldl_inv _ (fun s2 => x ∈ s2.registered)
    (fun s2 c h =>
      (avStep_registered P regOk bounds mask clear s2 c x).mpr (Or.inl h))
    l s hx

end DC

namespace DC

/-- Zero-vote count over the clearing `apply_votes` fold: one per masked
hardware type whose voter is registered or registrable. -/
theorem votesFold_clear_count (P : Presets) (regOk : Hw → Bool)
    (bounds : Hw → Option (Nat × Nat)) (mask : Finset Hw) (l : List Hw)
    (s : State) (x : Hw) (hnd : l.Nodup) :
    (emits (avStep P regOk bounds mask true)
        (avVotes P regOk bounds mask true) s l).count (x, 0) =
      if x ∈ l ∧ x ∈ mask ∧ (x ∈ s.registered ∨ regOk x = true)
      then 1 else 0 := by
  induction l generalizing s with
  | nil => simp [emits]
  | cons c t ih =>
    obtain ⟨hct, hndt⟩ := List.nodup_cons.mp hnd
    simp only [emits, List.count_append]
    rw [ih (avStep P regOk bounds mask true s c) hndt,
      avVotes_clear_count]
    have hregf := avStep_registered P regOk bounds mask true s c x
    by_cases hxc : x = c
    · subst hxc
      have hxt : x ∉ t := hct
      split_ifs <;> simp_all [List.mem_cons]
    · have : x ∈ (avStep P regOk bounds mask true s c).registered ↔
          x ∈ s.registered := by
        rw [hregf]
        simp [hxc]
      split_ifs <;> simp_all [List.mem_cons]
  
/-- Zero-vote count over the clearing `apply_votes_max` fold. -/
theorem votesMaxFold_clear_count (regOk : Hw → Bool)
    (bounds : Hw → Option (Nat × Nat)) (mask : Finset Hw) (l : List Hw)
    (s : State) (x : Hw) (hnd : l.Nodup) :
    (emits (avmStep regOk bounds mask true)
        (avmVotes regOk bounds mask true) s l).count (x, 0) =
      if x ∈ l ∧ x ∈ mask ∧ (x ∈ s.registered ∨ regOk x = true)
      then 1 else 0 := by
  induction l generalizing s with
  | nil => simp [emits]
  | cons c t ih =>
    obtain ⟨hct, hndt⟩ := List.nodup_cons.mp hnd
    simp only [emits, List.count_append]
    rw [ih (avmStep regOk bounds mask true s c) hndt,
      avmVotes_clear_count]
    have hregf := avmStep_registered regOk bounds mask true s c x
    by_cases hxc : x = c
    · subst hxc
      have hxt : x ∉ t := hct
      split_ifs <;> simp_all [List.mem_cons]
    · have : x ∈ (avmStep regOk bounds mask true s c).registered ↔
          x ∈ s.registered := by
        rw [hregf]
        simp [hxc]
      split_ifs <;> simp_all [List.mem_cons]

/-- `zeroVotesFor` distributes over call-list concatenation. -/
theorem zeroVotesFor_append (kind : Kind) (x : Hw) (cs1 cs2 : List Call) :
    zeroVotesFor kind x (cs1 ++ cs2) =
      zeroVotesFor kind x cs1 + zeroVotesFor kind x cs2 := by
  unfold zeroVotesFor
  rw [List.map_append, List.sum_append]

/-- Registration calls cast no votes. -/
theorem zeroVotesFor_reg_list (kind : Kind) (x : Hw) (cs : List Call)
    (h : ∀ call ∈ cs, ∃ hw2 ok, call = Call.register hw2 ok) :
    zeroVotesFor kind x cs = 0 := by
  induction cs with
  | nil => rfl
  | cons call t ih =>
    obtain ⟨hw2, ok, rfl⟩ := h call (List.mem_cons_self call t)
    unfold zeroVotesFor at ih ⊢
    simp only [List.map_cons, List.sum_cons]
    rw [ih (fun c2 hc2 => h c2 (List.mem_cons_of_mem _ hc2))]

/-- A single batched vote call counts its own batch for its own kind. -/
theorem zeroVotesFor_upd (kind kd : Kind) (x : Hw)
    (votes : List (Hw × Nat)) :
    zeroVotesFor kind x [Call.updateVotes kd votes] =
      if kd = kind then votes.count (x, 0) else 0 := by
  unfold zeroVotesFor
  simp

end DC

namespace DC

/-- `apply_votes` mutates only the registered bitmap. -/
theorem apply_votes_state (P : Presets) (regOk : Hw → Bool)
    (bounds : Hw → Option (Nat × Nat)) (mask : Finset Hw) (clear : Bool)
    (s : State) :
    (apply_votes P regOk bounds mask clear s).1.active = s.active ∧
    (apply_votes P regOk bounds mask clear s).1.active_max
      = s.active_max ∧
    (apply_votes P regOk bounds mask clear s).1.pending = s.pending ∧
    (apply_votes P regOk bounds mask clear s).1.pending_max
      = s.pending_max ∧
    (apply_votes P regOk bounds mask clear s).1.expires = s.expires := by
  rw [apply_votes_eq]
  exact votesFold_frame P regOk bounds mask clear boost_hw_list s

/-- `apply_votes_max` mutates only the registered bitmap. -/
theorem apply_votes_max_state (regOk : Hw → Bool)
    (bounds : Hw → Option (Nat × Nat)) (mask : Finset Hw) (clear : Bool)
    (s : State) :
    (apply_votes_max regOk bounds mask clear s).1.active = s.active ∧
    (apply_votes_max regOk bounds mask clear s).1.active_max
      = s.active_max ∧
    (apply_votes_max regOk bounds mask clear s).1.pending = s.pending ∧
    (apply_votes_max regOk bounds mask clear s).1.pending_max
      = s.pending_max ∧
    (apply_votes_max regOk bounds mask clear s).1.expires = s.expires := by
  rw [apply_votes_max_eq]
  exact votesMaxFold_frame regOk bounds mask clear boost_hw_list s

/-- The calls of `apply_votes` track the registered-voter multiset. -/
theorem apply_votes_reg (P : Presets) (regOk : Hw → Bool)
    (bounds : Hw → Option (Nat × Nat)) (mask : Finset Hw) (clear : Bool)
    (s : State) :
    (apply_votes P regOk bounds mask clear s).2.foldl regStep
        s.registered.val =
      (apply_votes P regOk bounds mask clear s).1.registered.val := by
  rw [apply_votes_eq]
  dsimp only
  rw [List.foldl_append, votesFold_reg]
  split_ifs <;> simp [regStep]

/-- The calls of `apply_votes_max` track the registered-voter
multiset. -/
theorem apply_votes_max_reg (regOk : Hw → Bool)
    (bounds : Hw → Option (Nat × Nat)) (mask : Finset Hw) (clear : Bool)
    (s : State) :
    (apply_votes_max regOk bounds mask clear s).2.foldl regStep
        s.registered.val =
      (apply_votes_max regOk bounds mask clear s).1.registered.val := by
  rw [apply_votes_max_eq]
  dsimp only
  rw [List.foldl_append, votesMaxFold_reg]
  split_ifs <;> simp [regStep]

/-- Registered voters survive `apply_votes`. -/
theorem apply_votes_reg_mono (P : Presets) (regOk : Hw → Bool)
    (bounds : Hw → Option (Nat × Nat)) (mask : Finset Hw) (clear : Bool)
    (s : State) (x : Hw) (hx : x ∈ s.registered) :
    x ∈ (apply_votes P regOk bounds mask clear s).1.registered := by
  rw [apply_votes_eq]
  exact votesFold_reg_mono P regOk bounds mask clear boost_hw_list s x hx

/-- With a mask of nonzero-preset hardware types, every call of
`apply_votes` respects the kick preset filter. -/
theorem apply_votes_kickOk (P : Presets) (regOk : Hw → Bool)
    (bounds : Hw → Option (Nat × Nat)) (mask : Finset Hw) (clear : Bool)
    (s : State) (hmask : mask ⊆ kickMask P) :
    ∀ call ∈ (apply_votes P regOk bounds mask clear s).2,
      kickVoteOk P call := by
  rw [apply_votes_eq]
  dsimp only
  intro call hcall
  rcases List.mem_append.mp hcall with h | h
  · obtain ⟨hw2, ok, rfl⟩ :=
      votesFold_calls_reg P regOk bounds mask clear boost_hw_list s call h
    exact trivial
  · split_ifs at h with hv
    · cases h
    · rw [List.mem_singleton] at h
      subst h
      show ∀ v ∈ emits (avStep P regOk bounds mask clear)
        (avVotes P regOk bounds mask clear) s boost_hw_list,
        preset_for_hw P v.1 ≠ 0
      intro v hv2
      exact (mem_kickMask P v.1).mp
        (hmask (votesFold_mask P regOk bounds mask clear boost_hw_list s v hv2))

/-- Every call of `apply_votes_max` respects the kick preset filter
(its batch is of max kind). -/
theorem apply_votes_max_kickOk (P : Presets) (regOk : Hw → Bool)
    (bounds : Hw → Option (Nat × Nat)) (mask : Finset Hw) (clear : Bool)
    (s : State) :
    ∀ call ∈ (apply_votes_max regOk bounds mask clear s).2,
      kickVoteOk P call := by
  rw [apply_votes_max_eq]
  dsimp only
  intro call hcall
  rcases List.mem_append.mp hcall with h | h
  · obtain ⟨hw2, ok, rfl⟩ :=
      votesMaxFold_calls_reg regOk bounds mask clear boost_hw_list s call h
    exact trivial
  · split_ifs at h with hv
    · cases h
    · rw [List.mem_singleton] at h
      subst h
      exact trivial

/-- Zero-vote counts of a clearing `apply_votes` call: one kick-kind
zero vote per masked available hardware type, no max-kind votes. -/
theorem apply_votes_zero_count (P : Presets) (regOk : Hw → Bool)
    (bounds : Hw → Option (Nat × Nat)) (mask : Finset Hw) (s : State)
    (x : Hw) :
    zeroVotesFor Kind.kick x (apply_votes P regOk bounds mask true s).2 =
      (if x ∈ mask ∧ (x ∈ s.registered ∨ regOk x = true)
       then 1 else 0) ∧
    zeroVotesFor Kind.kmax x (apply_votes P regOk bounds mask true s).2
      = 0 := by
  rw [apply_votes_eq]
  dsimp only
  have hc := votesFold_clear_count P regOk bounds mask boost_hw_list s x
    boost_hw_list_nodup
  constructor
  · rw [zeroVotesFor_append, zeroVotesFor_reg_list _ _ _
      (votesFold_calls_reg P regOk bounds mask true boost_hw_list s)]
    by_cases hv : emits (avStep P regOk bounds mask true)
        (avVotes P regOk bounds mask true) s boost_hw_list = []
    · rw [if_pos hv]
      rw [hv] at hc
      simp only [List.count_nil, mem_boost_hw_list, true_and] at hc
      rw [← hc]
      simp [zeroVotesFor]
    · rw [if_neg hv, zeroVotesFor_upd]
      simp only [mem_boost_hw_list, true_and] at hc
      simp [hc]
  · rw [zeroVotesFor_append, zeroVotesFor_reg_list _ _ _
      (votesFold_calls_reg P regOk bounds mask true boost_hw_list s)]
    by_cases hv : emits (avStep P regOk bounds mask true)
        (avVotes P regOk bounds mask true) s boost_hw_list = []
    · rw [if_pos hv]
      simp [zeroVotesFor]
    · rw [if_neg hv, zeroVotesFor_upd]
      simp

/-- Zero-vote counts of a clearing `apply_votes_max` call. -/
theorem apply_votes_max_zero_count (regOk : Hw → Bool)
    (bounds : Hw → Option (Nat × Nat)) (mask : Finset Hw) (s : State)
    (x : Hw) :
    zeroVotesFor Kind.kmax x (apply_votes_max regOk bounds mask true s).2 =
      (if x ∈ mask ∧ (x ∈ s.registered ∨ regOk x = true)
       then 1 else 0) ∧
    zeroVotesFor Kind.kick x (apply_votes_max regOk bounds mask true s).2
      = 0 := by
  rw [apply_votes_max_eq]
  dsimp only
  have hc := votesMaxFold_clear_count regOk bounds mask boost_hw_list s x
    boost_hw_list_nodup
  constructor
  · rw [zeroVotesFor_append, zeroVotesFor_reg_list _ _ _
      (votesMaxFold_calls_reg regOk bounds mask true boost_hw_list s)]
    by_cases hv : emits (avmStep regOk bounds mask true)
        (avmVotes regOk bounds mask true) s boost_hw_list = []
    · rw [if_pos hv]
      rw [hv] at hc
      simp only [List.count_nil, mem_boost_hw_list, true_and] at hc
      rw [← hc]
      simp [zeroVotesFor]
    · rw [if_neg hv, zeroVotesFor_upd]
      simp only [mem_boost_hw_list, true_and] at hc
      simp [hc]
  · rw [zeroVotesFor_append, zeroVotesFor_reg_list _ _ _
      (votesMaxFold_calls_reg regOk bounds mask true boost_hw_list s)]
    by_cases hv : emits (avmStep regOk bounds mask true)
        (avmVotes regOk bounds mask true) s boost_hw_list = []
    · rw [if_pos hv]
      simp [zeroVotesFor]
    · rw [if_neg hv, zeroVotesFor_upd]
      simp

end DC

namespace DC

/-- Full characterisation of the apply phase of `dcvs_boost_worker`:
masks are merged into the active sets, only the registered bitmap
otherwise changes, the registered-voter multiset is tracked, and calls
respect the preset filter when the kick mask does. -/
theorem applyPhase_spec (P : Presets) (regOk : Hw → Bool)
    (bounds : Hw → Option (Nat × Nat)) (enM enX : Finset Hw) (s : State) :
    (applyPhase P regOk bounds enM enX s).1.active = s.active ∪ enM ∧
    (applyPhase P regOk bounds enM enX s).1.active_max
      = s.active_max ∪ enX ∧
    (applyPhase P regOk bounds enM enX s).1.pending = s.pending ∧
    (applyPhase P regOk bounds enM enX s).1.pending_max
      = s.pending_max ∧
    (applyPhase P regOk bounds enM enX s).1.expires = s.expires ∧
    ((applyPhase P regOk bounds enM enX s).2.foldl regStep
        s.registered.val =
      (applyPhase P regOk bounds enM enX s).1.registered.val) ∧
    (enM ⊆ kickMask P →
      ∀ call ∈ (applyPhase P regOk bounds enM enX s).2,
        kickVoteOk P call) := by
  unfold applyPhase
  dsimp only
  by_cases hM : enM = ∅ <;> by_cases hX : enX = ∅
  · have hM' : ¬ enM ≠ ∅ := fun h => h hM
    have hX' : ¬ enX ≠ ∅ := fun h => h hX
    rw [if_neg hX', if_neg hM']
    dsimp only
    simp [hM, hX]
  · have hM' : ¬ enM ≠ ∅ := fun h => h hM
    rw [if_pos hX, if_neg hM']
    dsimp only
    have hs := apply_votes_max_state regOk bounds enX false
      { s with active_max := s.active_max ∪ enX }
    have hr := apply_votes_max_reg regOk bounds enX false
      { s with active_max := s.active_max ∪ enX }
    have hk := apply_votes_max_kickOk (P := P) regOk bounds enX false
      { s with active_max := s.active_max ∪ enX }
    refine ⟨by rw [hs.1]; simp [hM], by rw [hs.2.1],
      by rw [hs.2.2.1], by rw [hs.2.2.2.1], by rw [hs.2.2.2.2],
      by simpa using hr, fun _ call hc => hk call (by simpa using hc)⟩
  · have hX' : ¬ enX ≠ ∅ := fun h => h hX
    rw [if_neg hX', if_pos hM]
    dsimp only
    have hs := apply_votes_state P regOk bounds enM false
      { s with active := s.active ∪ enM }
    have hr := apply_votes_reg P regOk bounds enM false
      { s with active := s.active ∪ enM }
    refine ⟨by rw [hs.1], by rw [hs.2.1]; simp [hX],
      by rw [hs.2.2.1], by rw [hs.2.2.2.1], by rw [hs.2.2.2.2],
      by simpa using hr, fun hmask call hc => ?_⟩
    exact apply_votes_kickOk P regOk bounds enM false
      { s with active := s.active ∪ enM } hmask call (by simpa using hc)
  · rw [if_pos hX, if_pos hM]
    have hs1 := apply_votes_state P regOk bounds enM false
      { s with active := s.active ∪ enM }
    have hs2 := apply_votes_max_state regOk bounds enX false
      { (apply_votes P regOk bounds enM false
          { s with active := s.active ∪ enM }).1 with
        active_max := (apply_votes P regOk bounds enM false
          { s with active := s.active ∪ enM }).1.active_max ∪ enX }
    have hr1 := apply_votes_reg P regOk bounds enM false
      { s with active := s.active ∪ enM }
    have hr2 := apply_votes_max_reg regOk bounds enX false
      { (apply_votes P regOk bounds enM false
          { s with active := s.active ∪ enM }).1 with
        active_max := (apply_votes P regOk bounds enM false
          { s with active := s.active ∪ enM }).1.active_max ∪ enX }
    refine ⟨by rw [hs2.1]; exact hs1.1,
      by rw [hs2.2.1, hs1.2.1],
      by rw [hs2.2.2.1]; exact hs1.2.2.1,
      by rw [hs2.2.2.2.1]; exact hs1.2.2.2.1,
      by rw [hs2.2.2.2.2]; exact hs1.2.2.2.2, ?_, ?_⟩
    · rw [List.foldl_append, hr1]
      exact hr2
    · intro hmask call hc
      rcases List.mem_append.mp hc with h | h
      · exact apply_votes_kickOk P regOk bounds enM false
          { s with active := s.active ∪ enM } hmask call h
      · exact apply_votes_max_kickOk (P := P) regOk bounds enX false _
          call h

end DC

namespace DC

/-- Full characterisation of the teardown phase of
`dcvs_boost_worker`: both active sets are cleared unconditionally, the
rest of the state except the registered bitmap is untouched, the
registered-voter multiset is tracked, and calls respect the preset
filter when the kick active set does. -/
theorem teardownPhase_spec (P : Presets) (regOk : Hw → Bool)
    (bounds : Hw → Option (Nat × Nat)) (s : State) :
    (teardownPhase P regOk bounds s).1.active = ∅ ∧
    (teardownPhase P regOk bounds s).1.active_max = ∅ ∧
    (teardownPhase P regOk bounds s).1.pending = s.pending ∧
    (teardownPhase P regOk bounds s).1.pending_max = s.pending_max ∧
    (teardownPhase P regOk bounds s).1.expires = s.expires ∧
    ((teardownPhase P regOk bounds s).2.foldl regStep
        s.registered.val =
      (teardownPhase P regOk bounds s).1.registered.val) ∧
    (s.active ⊆ kickMask P →
      ∀ call ∈ (teardownPhase P regOk bounds s).2,
        kickVoteOk P call) := by
  unfold teardownPhase
  dsimp only
  by_cases hM : s.active = ∅ <;> by_cases hX : s.active_max = ∅
  · have hM' : ¬ s.active ≠ ∅ := fun h => h hM
    have hX' : ¬ s.active_max ≠ ∅ := fun h => h hX
    rw [if_neg hX', if_neg hM']
    dsimp only
    simp
  · have hM' : ¬ s.active ≠ ∅ := fun h => h hM
    rw [if_pos hX, if_neg hM']
    dsimp only
    have hs := apply_votes_max_state regOk bounds s.active_max true s
    have hr := apply_votes_max_reg regOk bounds s.active_max true s
    exact ⟨rfl, rfl, hs.2.2.1, hs.2.2.2.1, hs.2.2.2.2,
      by simpa using hr,
      fun _ call hc => apply_votes_max_kickOk (P := P) regOk bounds
        s.active_max true s call (by simpa using hc)⟩
  · have hX' : ¬ s.active_max ≠ ∅ := fun h => h hX
    rw [if_neg hX', if_pos hM]
    dsimp only
    have hs := apply_votes_state P regOk bounds s.active true s
    have hr := apply_votes_reg P regOk bounds s.active true s
    exact ⟨rfl, rfl, hs.2.2.1, hs.2.2.2.1, hs.2.2.2.2,
      by simpa using hr,
      fun hmask call hc => apply_votes_kickOk P regOk bounds s.active
        true s hmask call (by simpa using hc)⟩
  · rw [if_pos hX, if_pos hM]
    have hs1 := apply_votes_state P regOk bounds s.active true s
    have hs2 := apply_votes_max_state regOk bounds s.active_max true
      (apply_votes P regOk bounds s.active true s).1
    have hr1 := apply_votes_reg P regOk bounds s.active true s
    have hr2 := apply_votes_max_reg regOk bounds s.active_max true
      (apply_votes P regOk bounds s.active true s).1
    refine ⟨rfl, rfl,
      by rw [hs2.2.2.1]; exact hs1.2.2.1,
      by rw [hs2.2.2.2.1]; exact hs1.2.2.2.1,
      by rw [hs2.2.2.2.2]; exact hs1.2.2.2.2, ?_, ?_⟩
    · rw [List.foldl_append, hr1]
      exact hr2
    · intro hmask call hc
      rcases List.mem_append.mp hc with h | h
      · exact apply_votes_kickOk P regOk bounds s.active true s hmask
          call h
      · exact apply_votes_max_kickOk (P := P) regOk bounds s.active_max
          true _ call h

/-- Every hardware type holding a registered voter and active at
teardown start receives exactly one zero vote of each kind it was
active for. -/
theorem teardownPhase_count (P : Presets) (regOk : Hw → Bool)
    (bounds : Hw → Option (Nat × Nat)) (s : State) (x : Hw) :
    (x ∈ s.active → x ∈ s.registered →
      zeroVotesFor Kind.kick x (teardownPhase P regOk bounds s).2 = 1) ∧
    (x ∈ s.active_max → x ∈ s.registered →
      zeroVotesFor Kind.kmax x (teardownPhase P regOk bounds s).2 = 1) := by
  unfold teardownPhase
  dsimp only
  constructor
  · intro hxa hxr
    have hM : s.active ≠ ∅ := Finset.ne_empty_of_mem hxa
    rw [if_pos hM]
    by_cases hX : s.active_max = ∅
    · have hX' : ¬ s.active_max ≠ ∅ := fun h => h hX
      rw [if_neg hX']
      dsimp only
      rw [zeroVotesFor_append,
        (apply_votes_zero_count P regOk bounds s.active s x).1,
        if_pos ⟨hxa, Or.inl hxr⟩]
      rfl
    · rw [if_pos hX]
      rw [zeroVotesFor_append,
        (apply_votes_zero_count P regOk bounds s.active s x).1,
        if_pos ⟨hxa, Or.inl hxr⟩,
        (apply_votes_max_zero_count regOk bounds s.active_max _ x).2]
  · intro hxa hxr
    have hX : s.active_max ≠ ∅ := Finset.ne_empty_of_mem hxa
    rw [if_pos hX]
    by_cases hM : s.active = ∅
    · have hM' : ¬ s.active ≠ ∅ := fun h => h hM
      rw [if_neg hM']
      dsimp only
      rw [zeroVotesFor_append,
        (apply_votes_max_zero_count regOk bounds s.active_max s x).1,
        if_pos ⟨hxa, Or.inl hxr⟩]
      rfl
    · rw [if_pos hM]
      rw [zeroVotesFor_append,
        (apply_votes_zero_count P regOk bounds s.active s x).2,
        (apply_votes_max_zero_count regOk bounds s.active_max
          (apply_votes P regOk bounds s.active true s).1 x).1,
        if_pos ⟨hxa, Or.inl
          (apply_votes_reg_mono P regOk bounds s.active true s x hxr)⟩]

end DC

namespace DC

/-- The dcvs invariant holds at module init. -/
theorem DInv_init (P : Presets) : Inv P initState [] :=
  ⟨Finset.empty_subset _, Finset.empty_subset _, rfl,
   fun call hc => absurd hc (List.not_mem_nil call)⟩

/-- `qcom_dcvs_bus_boost_kick` preserves the dcvs invariant. -/
theorem DInv_kick (P : Presets) (HZ now d : Nat) (s : State)
    (tr : List Call) (h : Inv P s tr) :
    Inv P (qcom_dcvs_bus_boost_kick P HZ now d s).1 tr := by
  obtain ⟨h1, h2, h3, h4⟩ := h
  unfold qcom_dcvs_bus_boost_kick
  split_ifs with hkm
  · exact ⟨h1, h2, h3, h4⟩
  · exact ⟨Finset.union_subset h1 (Finset.Subset.refl _), h2, h3, h4⟩

/-- `qcom_dcvs_bus_boost_kick_max` preserves the dcvs invariant. -/
theorem DInv_kickMax (P : Presets) (HZ now d : Nat) (s : State)
    (tr : List Call) (h : Inv P s tr) :
    Inv P (qcom_dcvs_bus_boost_kick_max HZ now d s).1 tr := h

/-- One dcvs reconciler pass preserves the dcvs invariant. -/
theorem DInv_worker (P : Presets) (s : State) (tr : List Call)
    (regOk : Hw → Bool) (bounds : Hw → Option (Nat × Nat)) (now : Nat)
    (h : Inv P s tr) :
    Inv P (dcvs_boost_worker P regOk bounds now s).1
      (tr ++ (dcvs_boost_worker P regOk bounds now s).2.1) := by
  obtain ⟨h1, h2, h3, h4⟩ := h
  unfold dcvs_boost_worker
  dsimp only [drain]
  have hap := applyPhase_spec P regOk bounds s.pending s.pending_max
    { s with pending := ∅, pending_max := ∅ }
  have hactive : (applyPhase P regOk bounds s.pending s.pending_max
      { s with pending := ∅, pending_max := ∅ }).1.active
      ⊆ kickMask P := by
    rw [hap.1]
    exact Finset.union_subset h2 h1
  have hreg : regHandles (tr ++ (applyPhase P regOk bounds s.pending
      s.pending_max { s with pending := ∅, pending_max := ∅ }).2) =
      (applyPhase P regOk bounds s.pending s.pending_max
        { s with pending := ∅, pending_max := ∅ }).1.registered.val := by
    unfold regHandles at h3 ⊢
    rw [List.foldl_append, h3]
    exact hap.2.2.2.2.2.1
  have hcalls : ∀ call ∈ tr ++ (applyPhase P regOk bounds s.pending
      s.pending_max { s with pending := ∅, pending_max := ∅ }).2,
      kickVoteOk P call := by
    intro call hc
    rcases List.mem_append.mp hc with hin | hin
    · exact h4 call hin
    · exact hap.2.2.2.2.2.2 h1 call hin
  split_ifs with hexp
  · have htd := teardownPhase_spec P regOk bounds
      (applyPhase P regOk bounds s.pending s.pending_max
        { s with pending := ∅, pending_max := ∅ }).1
    refine ⟨?_, ?_, ?_, ?_⟩
    · rw [htd.2.2.1, hap.2.2.1]
      exact Finset.empty_subset _
    · rw [htd.1]
      exact Finset.empty_subset _
    · unfold regHandles at hreg ⊢
      rw [← List.append_assoc, List.foldl_append, hreg]
      exact htd.2.2.2.2.2.1
    · intro call hc
      rcases List.mem_append.mp hc with hin | hin
      · exact h4 call hin
      · rcases List.mem_append.mp hin with hin2 | hin2
        · exact hap.2.2.2.2.2.2 h1 call hin2
        · exact htd.2.2.2.2.2.2 hactive call hin2
  · exact ⟨by rw [hap.2.2.1]; exact Finset.empty_subset _,
      by rw [hap.1]; exact Finset.union_subset h2 h1, hreg, hcalls⟩

end DC

namespace DC

/-- The dcvs master invariant holds in every reachable configuration. -/
theorem dc_reachable_inv (P : Presets) (HZ : Nat) (s : State)
    (tr : List Call) (h : Reachable P HZ s tr) : Inv P s tr := by
  induction h with
  | init => exact DInv_init P
  | kick s tr now d h ih => exact DInv_kick P HZ now d s tr ih
  | kickMax s tr now d h ih => exact DInv_kickMax P HZ now d s tr ih
  | worker s tr regOk bounds now h ih =>
    exact DInv_worker P s tr regOk bounds now ih

end DC

namespace CB

/-- `cpu_boost_worker` split by the expiry check: either apply-then-
teardown with no reschedule, or apply-then-reschedule. -/
theorem worker_split (env : Env) (k : KickCfg) (okM okK : Nat → Bool)
    (now : Nat) (s : State) :
    (time_after now s.expires = true →
      cpu_boost_worker env k okM okK now s =
        (env.online.foldl (tdStep env)
           (env.online.foldl
             (applyStep env k okM okK s.pending_max s.pending_kick)
             { s with pending_max := ∅, pending_kick := ∅ }),
         emits (applyStep env k okM okK s.pending_max s.pending_kick)
             (applyCalls env k okM okK s.pending_max s.pending_kick)
             { s with pending_max := ∅, pending_kick := ∅ } env.online ++
           emits (tdStep env) (tdCalls env)
             (env.online.foldl
               (applyStep env k okM okK s.pending_max s.pending_kick)
               { s with pending_max := ∅, pending_kick := ∅ })
             env.online,
         none)) ∧
    (time_after now s.expires = false →
      cpu_boost_worker env k okM okK now s =
        (env.online.foldl
           (applyStep env k okM okK s.pending_max s.pending_kick)
           { s with pending_max := ∅, pending_kick := ∅ },
         emits (applyStep env k okM okK s.pending_max s.pending_kick)
             (applyCalls env k okM okK s.pending_max s.pending_kick)
             { s with pending_max := ∅, pending_kick := ∅ } env.online,
         some (remainingDelay now s.expires))) := by
  unfold cpu_boost_worker
  dsimp only [drain]
  rw [applyPass_eq]
  dsimp only
  rw [teardownPass_eq]
  dsimp only
  rw [show (env.online.foldl
      (applyStep env k okM okK s.pending_max s.pending_kick)
      { s with pending_max := ∅, pending_kick := ∅ }).expires = s.expires
    from (applyFold_frame env k okM okK s.pending_max s.pending_kick
      env.online _).1]
  constructor
  · intro h
    rw [if_pos h]
  · intro h
    rw [if_neg (by rw [h]; exact Bool.false_ne_true)]

end CB

namespace DC

/-- `dcvs_boost_worker` split by the expiry check. -/
theorem dcvs_worker_split (P : Presets) (regOk : Hw → Bool)
    (bounds : Hw → Option (Nat × Nat)) (now : Nat) (s : State) :
    (time_after now s.expires = true →
      dcvs_boost_worker P regOk bounds now s =
        ((teardownPhase P regOk bounds
            (applyPhase P regOk bounds s.pending s.pending_max
              { s with pending := ∅, pending_max := ∅ }).1).1,
         (applyPhase P regOk bounds s.pending s.pending_max
            { s with pending := ∅, pending_max := ∅ }).2 ++
           (teardownPhase P regOk bounds
             (applyPhase P regOk bounds s.pending s.pending_max
               { s with pending := ∅, pending_max := ∅ }).1).2,
         none)) ∧
    (time_after now s.expires = false →
      dcvs_boost_worker P regOk bounds now s =
        ((applyPhase P regOk bounds s.pending s.pending_max
            { s with pending := ∅, pending_max := ∅ }).1,
         (applyPhase P regOk bounds s.pending s.pending_max
            { s with pending := ∅, pending_max := ∅ }).2,
         some (CB.remainingDelay now s.expires))) := by
  unfold dcvs_boost_worker
  dsimp only [drain]
  rw [show (applyPhase P regOk bounds s.pending s.pending_max
      { s with pending := ∅, pending_max := ∅ }).1.expires = s.expires
    from (applyPhase_spec P regOk bounds s.pending s.pending_max
      { s with pending := ∅, pending_max := ∅ }).2.2.2.2.1]
  constructor
  · intro h
    rw [if_pos h]
  · intro h
    rw [if_neg (by rw [h]; exact Bool.false_ne_true)]

end DC

namespace CB

/-- Every constraint-API call one reconciler pass issues targets an
online CPU that leads its own policy. -/
theorem worker_calls_eligible (env : Env) (k : KickCfg)
    (okM okK : Nat → Bool) (now : Nat) (s : State) :
    ∀ call ∈ (cpu_boost_worker env k okM okK now s).2.1,
      eligibleB env call.cpu = true := by
  intro call hcall
  by_cases hexp : time_after now s.expires = true
  · rw [(worker_split env k okM okK now s).1 hexp] at hcall
    rcases List.mem_append.mp hcall with h | h
    · have hc := applyFold_calls env k okM okK s.pending_max
        s.pending_kick env.online _ call h
      exact (eligibleB_iff env call.cpu).mpr ⟨hc.1, hc.2.1⟩
    · have hc := tdFold_calls (k := k) env env.online _ call h
      exact (eligibleB_iff env call.cpu).mpr ⟨hc.1, hc.2.1⟩
  · have hfalse : time_after now s.expires = false := by
      revert hexp
      cases time_after now s.expires <;> simp
    rw [(worker_split env k okM okK now s).2 hfalse] at hcall
    have hc := applyFold_calls env k okM okK s.pending_max
      s.pending_kick env.online _ call hcall
    exact (eligibleB_iff env call.cpu).mpr ⟨hc.1, hc.2.1⟩

end CB

/-- C10: a reconciler pass of the cpufreq boost driver issues
constraint-API calls only for online policy leaders; pending bits of
any other index are discarded by the drain (both pending sets end
empty) and have no effect on the active sets, which change only at
eligible CPUs. -/
theorem C10_ineligible_pending_discarded (env : CB.Env) (k : CB.KickCfg)
    (okM okK : Nat → Bool) (now : Nat) (s : CB.State) :
    (∀ call ∈ (CB.cpu_boost_worker env k okM okK now s).2.1,
      CB.eligibleB env (CB.QosCall.cpu call) = true) ∧
    (CB.cpu_boost_worker env k okM okK now s).1.pending_max = ∅ ∧
    (CB.cpu_boost_worker env k okM okK now s).1.pending_kick = ∅ ∧
    (∀ c : Nat, CB.eligibleB env c = false →
      ((c ∈ (CB.cpu_boost_worker env k okM okK now s).1.active_max ↔
          c ∈ s.active_max) ∧
       (c ∈ (CB.cpu_boost_worker env k okM okK now s).1.active_kick ↔
          c ∈ s.active_kick))) := by
  have hA := CB.applyFold_frame env k okM okK s.pending_max
    s.pending_kick env.online
    { s with pending_max := ∅, pending_kick := ∅ }
  refine ⟨CB.worker_calls_eligible env k okM okK now s, ?_, ?_, ?_⟩
  · by_cases hexp : time_after now s.expires = true
    · rw [(CB.worker_split env k okM okK now s).1 hexp]
      exact ((CB.tdFold_frame env env.online _).2.1).trans hA.2.1
    · have hfalse : time_after now s.expires = false := by
        revert hexp
        cases time_after now s.expires <;> simp
      rw [(CB.worker_split env k okM okK now s).2 hfalse]
      exact hA.2.1
  · by_cases hexp : time_after now s.expires = true
    · rw [(CB.worker_split env k okM okK now s).1 hexp]
      exact ((CB.tdFold_frame env env.online _).2.2).trans hA.2.2
    · have hfalse : time_after now s.expires = false := by
        revert hexp
        cases time_after now s.expires <;> simp
      rw [(CB.worker_split env k okM okK now s).2 hfalse]
      exact hA.2.2
  · intro c hc
    have hnel : ¬(c ∈ env.online ∧ CB.isLeaderB env c = true) := by
      intro hmem
      rw [(CB.eligibleB_iff env c).mpr hmem] at hc
      cases hc
    have hAf := CB.applyFold_active_frame env k okM okK s.pending_max
      s.pending_kick env.online
      { s with pending_max := ∅, pending_kick := ∅ } c hnel
    by_cases hexp : time_after now s.expires = true
    · rw [(CB.worker_split env k okM okK now s).1 hexp]
      have hT := CB.tdFold_active env env.online
        (env.online.foldl
          (CB.applyStep env k okM okK s.pending_max s.pending_kick)
          { s with pending_max := ∅, pending_kick := ∅ }) c
      constructor
      · rw [hT.1]
        constructor
        · intro hm
          exact hAf.1.mp hm.1
        · intro hm
          exact ⟨hAf.1.mpr hm, hnel⟩
      · rw [hT.2]
        constructor
        · intro hm
          exact hAf.2.mp hm.1
        · intro hm
          exact ⟨hAf.2.mpr hm, hnel⟩
    · have hfalse : time_after now s.expires = false := by
        revert hexp
        cases time_after now s.expires <;> simp
      rw [(CB.worker_split env k okM okK now s).2 hfalse]
      exact ⟨hAf.1, hAf.2⟩

/-- C10 witness: a pass on a one-leader machine with both pending sets
full leaves no pending bits and issues calls only for CPU 0. -/
theorem C10_ineligible_pending_discarded_witness :
    (CB.cpu_boost_worker CB.envT CB.kickT CB.okT CB.okT 3
      { CB.initState with
          pending_max := Finset.range 2,
          pending_kick := Finset.range 2 }).1.pending_max = ∅ ∧
    (CB.eligibleB CB.envT 1 = false →
      (1 ∈ (CB.cpu_boost_worker CB.envT CB.kickT CB.okT CB.okT 3
        { CB.initState with
            pending_max := Finset.range 2,
            pending_kick := Finset.range 2 }).1.active_max ↔
        1 ∈ ({ CB.initState with
            pending_max := Finset.range 2,
            pending_kick := Finset.range 2 } : CB.State).active_max)) :=
  ⟨(C10_ineligible_pending_discarded CB.envT CB.kickT CB.okT CB.okT 3
      { CB.initState with
          pending_max := Finset.range 2,
          pending_kick := Finset.range 2 }).2.1,
   fun hc => ((C10_ineligible_pending_discarded CB.envT CB.kickT CB.okT
      CB.okT 3
      { CB.initState with
          pending_max := Finset.range 2,
          pending_kick := Finset.range 2 }).2.2.2 1 hc).1⟩

/-- C1: in every reachable configuration of the cpufreq boost driver,
the live constraint handles of the call trace are exactly the active
sets (so at most one live handle per (CPU, kind) pair, and the active
set for a kind contains exactly the CPUs holding a live handle); the
apply step adds a new request only when the active bit is clear,
setting the bit exactly on success, and updates in place when the bit
is set; and in the dcvs driver the registered-voter multiset is exactly
the registered bitmap (one live registration per hardware type). -/
theorem C1_one_live_handle_per_domain_kind :
    (∀ (k : CB.KickCfg) (HZ : Nat) (env : CB.Env) (s : CB.State)
        (tr : List CB.QosCall), CB.Reachable k HZ env s tr →
      (CB.liveHandles tr).1 = s.active_max.val ∧
      (CB.liveHandles tr).2 = s.active_kick.val ∧
      (∀ c : Nat, (CB.liveHandles tr).1.count c ≤ 1 ∧
        (CB.liveHandles tr).2.count c ≤ 1)) ∧
    (∀ (okM : Nat → Bool) (p : CB.Policy) (c : Nat) (enM : Finset Nat)
        (s : CB.State), c ∈ enM →
      (c ∉ s.active_max →
        (CB.stepMax okM p c enM s).2
          = [CB.QosCall.addMax c p.maxFreq (okM c)] ∧
        (c ∈ (CB.stepMax okM p c enM s).1.active_max ↔ okM c = true)) ∧
      (c ∈ s.active_max →
        CB.stepMax okM p c enM s = (s, [CB.QosCall.updMax c p.maxFreq]))) ∧
    (∀ (P : DC.Presets) (HZ : Nat) (s : DC.State) (tr : List DC.Call),
      DC.Reachable P HZ s tr →
      DC.regHandles tr = s.registered.val ∧
      (∀ hw : DC.Hw, (DC.regHandles tr).count hw ≤ 1)) := by
  refine ⟨?_, ?_, ?_⟩
  · intro k HZ env s tr hr
    have hinv := CB.reachable_inv k HZ env s tr hr
    have hlive := hinv.2.2.2.1
    refine ⟨by rw [hlive], by rw [hlive], ?_⟩
    intro c
    constructor
    · rw [show (CB.liveHandles tr).1 = s.active_max.val from by rw [hlive]]
      exact Multiset.nodup_iff_count_le_one.mp s.active_max.nodup c
    · rw [show (CB.liveHandles tr).2 = s.active_kick.val from by rw [hlive]]
      exact Multiset.nodup_iff_count_le_one.mp s.active_kick.nodup c
  · intro okM p c enM s hen
    constructor
    · intro hna
      unfold CB.stepMax
      rw [if_pos hen, if_pos hna]
      by_cases hok : okM c = true
      · rw [if_pos hok, hok]
        simp [Finset.mem_insert, hok]
      · have hok' : okM c = false := by
          revert hok
          cases okM c <;> simp
        rw [if_neg hok, hok']
        simp [hok', hna]
    · intro ha
      unfold CB.stepMax
      rw [if_pos hen, if_neg (fun hna => hna ha)]
  · intro P HZ s tr hr
    have hinv := DC.dc_reachable_inv P HZ s tr hr
    refine ⟨hinv.2.2.1, ?_⟩
    intro hw
    rw [hinv.2.2.1]
    exact Multiset.nodup_iff_count_le_one.mp s.registered.nodup hw

/-- C1 witness: the correspondence evaluated on reachable
configurations — module init for the dcvs driver, and one request plus
one worker pass for the cpufreq driver. -/
theorem C1_one_live_handle_witness :
    (CB.liveHandles ([] ++ (CB.cpu_boost_worker
        (CB.envAddDom (CB.envEmpty 2) 0 3000 [0]) CB.kickT CB.okT CB.okT 0
        (CB.cpu_boost_max (CB.envAddDom (CB.envEmpty 2) 0 3000 [0]) 250 0
          100 CB.initState).1).2.1)).1
      = (CB.cpu_boost_worker (CB.envAddDom (CB.envEmpty 2) 0 3000 [0])
          CB.kickT CB.okT CB.okT 0
          (CB.cpu_boost_max (CB.envAddDom (CB.envEmpty 2) 0 3000 [0]) 250 0
            100 CB.initState).1).1.active_max.val ∧
    DC.regHandles [] = DC.initState.registered.val :=
  ⟨(C1_one_live_handle_per_domain_kind.1 CB.kickT 250
      (CB.envAddDom (CB.envEmpty 2) 0 3000 [0]) _ _
      (CB.Reachable.worker _ _ _ CB.okT CB.okT 0
        (CB.Reachable.boostMax _ _ _ 0 100
          (CB.Reachable.addDom _ _ _ 0 3000 [0] (CB.Reachable.init 2)
            (by decide) (by decide)
            (fun c hc => ⟨rfl, List.not_mem_nil c⟩))))).1,
   (C1_one_live_handle_per_domain_kind.2.2 DC.presetsT 250 DC.initState []
      DC.Reachable.init).1⟩

/-- C8: a (domain, kick-kind) pair whose policy floor is zero or
negative never receives a constraint install or update.  In the cpufreq
driver every kick-kind add/update in any reachable trace targets a CPU
with a positive tier preset; in the dcvs driver a zero-preset hardware
type never enters the kick pending or active sets and never appears in
a kick-kind vote batch. -/
theorem C8_nonpositive_floor_never_boosted :
    (∀ (k : CB.KickCfg) (HZ : Nat) (env : CB.Env) (s : CB.State)
        (tr : List CB.QosCall) (c : Nat) (v : Int) (ok : Bool),
      CB.Reachable k HZ env s tr →
      (CB.QosCall.addKick c v ok ∈ tr ∨ CB.QosCall.updKick c v ∈ tr) →
      0 < CB.kick_khz_for_cpu k c) ∧
    (∀ (P : DC.Presets) (HZ : Nat) (s : DC.State) (tr : List DC.Call),
      DC.Reachable P HZ s tr →
      (∀ hw : DC.Hw, DC.preset_for_hw P hw = 0 →
        hw ∉ s.pending ∧ hw ∉ s.active) ∧
      (∀ (votes : List (DC.Hw × Nat)) (hw : DC.Hw) (v : Nat),
        DC.Call.updateVotes DC.Kind.kick votes ∈ tr → (hw, v) ∈ votes →
        DC.preset_for_hw P hw ≠ 0)) := by
  constructor
  · intro k HZ env s tr c v ok hr hmem
    have hinv := CB.reachable_inv k HZ env s tr hr
    rcases hmem with h | h
    · exact hinv.2.2.2.2 _ h
    · exact hinv.2.2.2.2 _ h
  · intro P HZ s tr hr
    have hinv := DC.dc_reachable_inv P HZ s tr hr
    constructor
    · intro hw hz
      have hnk : hw ∉ DC.kickMask P := fun hm =>
        (DC.mem_kickMask P hw).mp hm hz
      exact ⟨fun hm => hnk (hinv.1 hm), fun hm => hnk (hinv.2.1 hm)⟩
    · intro votes hw v hcall hv
      exact hinv.2.2.2 _ hcall (hw, v) hv

/-- C8 witness: a concrete reachable trace containing a kick install,
whose CPU indeed has a positive preset; and the zero-preset exclusion
at the dcvs init state. -/
theorem C8_nonpositive_floor_witness :
    0 < CB.kick_khz_for_cpu CB.kickT 0 ∧
    (∀ hw : DC.Hw, DC.preset_for_hw DC.presetsT hw = 0 →
      hw ∉ DC.initState.pending ∧ hw ∉ DC.initState.active) :=
  ⟨C8_nonpositive_floor_never_boosted.1 CB.kickT 250
      (CB.envAddDom (CB.envEmpty 2) 0 3000 [0]) _ _ 0 300 true
      (CB.Reachable.worker _ _ _ CB.okT CB.okT 0
        (CB.Reachable.boostKick _ _ _ 0 100
          (CB.Reachable.addDom _ _ _ 0 3000 [0] (CB.Reachable.init 2)
            (by decide) (by decide)
            (fun c hc => ⟨rfl, List.not_mem_nil c⟩))))
      (Or.inl (by decide)),
   (C8_nonpositive_floor_never_boosted.2 DC.presetsT 250 DC.initState []
      DC.Reachable.init).1⟩

/-- C3: a reconciler pass that observes an expired window empties the
active sets of both drivers and does not reschedule; each CPU active
(per kind) after the apply phase receives exactly one remove call of
that kind from the teardown loop, and each registered hardware type
active (per kind) after the dcvs apply phase receives exactly one
zero-kHz vote of that kind (a removal failure is ignored by the code,
so the domain leaves the active set regardless). -/
theorem C3_expired_pass_removes_all :
    (∀ (k : CB.KickCfg) (HZ : Nat) (env : CB.Env) (s : CB.State)
        (tr : List CB.QosCall) (okM okK : Nat → Bool) (now : Nat),
      CB.Reachable k HZ env s tr → time_after now s.expires = true →
      (CB.cpu_boost_worker env k okM okK now s).1.active_max = ∅ ∧
      (CB.cpu_boost_worker env k okM okK now s).1.active_kick = ∅ ∧
      (CB.cpu_boost_worker env k okM okK now s).2.2 = none ∧
      (∀ c ∈ (CB.applyPass env k okM okK s.pending_max s.pending_kick
          (CB.drain s).2).1.active_max,
        (CB.teardownPass env (CB.applyPass env k okM okK s.pending_max
            s.pending_kick (CB.drain s).2).1).2.count
          (CB.QosCall.remMax c) = 1) ∧
      (∀ c ∈ (CB.applyPass env k okM okK s.pending_max s.pending_kick
          (CB.drain s).2).1.active_kick,
        (CB.teardownPass env (CB.applyPass env k okM okK s.pending_max
            s.pending_kick (CB.drain s).2).1).2.count
          (CB.QosCall.remKick c) = 1)) ∧
    (∀ (P : DC.Presets) (regOk : DC.Hw → Bool)
        (bounds : DC.Hw → Option (Nat × Nat)) (now : Nat) (s : DC.State),
      time_after now s.expires = true →
      (DC.dcvs_boost_worker P regOk bounds now s).1.active = ∅ ∧
      (DC.dcvs_boost_worker P regOk bounds now s).1.active_max = ∅ ∧
      (DC.dcvs_boost_worker P regOk bounds now s).2.2 = none ∧
      (∀ hw, hw ∈ (DC.applyPhase P regOk bounds s.pending s.pending_max
          (DC.drain s).2).1.active →
        hw ∈ (DC.applyPhase P regOk bounds s.pending s.pending_max
          (DC.drain s).2).1.registered →
        DC.zeroVotesFor DC.Kind.kick hw
          (DC.teardownPhase P regOk bounds
            (DC.applyPhase P regOk bounds s.pending s.pending_max
              (DC.drain s).2).1).2 = 1) ∧
      (∀ hw, hw ∈ (DC.applyPhase P regOk bounds s.pending s.pending_max
          (DC.drain s).2).1.active_max →
        hw ∈ (DC.applyPhase P regOk bounds s.pending s.pending_max
          (DC.drain s).2).1.registered →
        DC.zeroVotesFor DC.Kind.kmax hw
          (DC.teardownPhase P regOk bounds
            (DC.applyPhase P regOk bounds s.pending s.pending_max
              (DC.drain s).2).1).2 = 1)) := by
  constructor
  · intro k HZ env s tr okM okK now hr hexp
    have hinv := CB.reachable_inv k HZ env s tr hr
    have hnd := hinv.1
    have hAM : ∀ c ∈ (env.online.foldl
        (CB.applyStep env k okM okK s.pending_max s.pending_kick)
        { s with pending_max := ∅, pending_kick := ∅ }).active_max,
        CB.eligibleB env c = true := by
      intro c hc
      rcases (CB.applyFold_active_of env k okM okK s.pending_max
          s.pending_kick env.online _ c).1 hc with hin | ⟨honl, hlead⟩
      · exact hinv.2.1 c hin
      · exact (CB.eligibleB_iff env c).mpr ⟨honl, hlead⟩
    have hAK : ∀ c ∈ (env.online.foldl
        (CB.applyStep env k okM okK s.pending_max s.pending_kick)
        { s with pending_max := ∅, pending_kick := ∅ }).active_kick,
        CB.eligibleB env c = true := by
      intro c hc
      rcases (CB.applyFold_active_of env k okM okK s.pending_max
          s.pending_kick env.online _ c).2 hc with hin | ⟨honl, hlead⟩
      · exact hinv.2.2.1 c hin
      · exact (CB.eligibleB_iff env c).mpr ⟨honl, hlead⟩
    refine ⟨?_, ?_, ?_, ?_, ?_⟩
    · rw [(CB.worker_split env k okM okK now s).1 hexp]
      rw [Finset.eq_empty_iff_forall_not_mem]
      intro c hc
      have hm := (CB.tdFold_active env env.online _ c).1.mp hc
      exact hm.2 ((CB.eligibleB_iff env c).mp (hAM c hm.1))
    · rw [(CB.worker_split env k okM okK now s).1 hexp]
      rw [Finset.eq_empty_iff_forall_not_mem]
      intro c hc
      have hm := (CB.tdFold_active env env.online _ c).2.mp hc
      exact hm.2 ((CB.eligibleB_iff env c).mp (hAK c hm.1))
    · rw [(CB.worker_split env k okM okK now s).1 hexp]
    · intro c hc
      rw [CB.applyPass_eq] at hc
      rw [CB.applyPass_eq, CB.teardownPass_eq]
      have he := (CB.eligibleB_iff env c).mp (hAM c hc)
      rw [(CB.tdFold_count env env.online _ c hnd).1]
      rw [if_pos ⟨hc, he.1, he.2⟩]
    · intro c hc
      rw [CB.applyPass_eq] at hc
      rw [CB.applyPass_eq, CB.teardownPass_eq]
      have he := (CB.eligibleB_iff env c).mp (hAK c hc)
      rw [(CB.tdFold_count env env.online _ c hnd).2]
      rw [if_pos ⟨hc, he.1, he.2⟩]
  · intro P regOk bounds now s hexp
    have htd := DC.teardownPhase_spec P regOk bounds
      (DC.applyPhase P regOk bounds s.pending s.pending_max
        (DC.drain s).2).1
    refine ⟨?_, ?_, ?_, ?_, ?_⟩
    · rw [(DC.dcvs_worker_split P regOk bounds now s).1 hexp]
      exact htd.1
    · rw [(DC.dcvs_worker_split P regOk bounds now s).1 hexp]
      exact htd.2.1
    · rw [(DC.dcvs_worker_split P regOk bounds now s).1 hexp]
    · intro hw h1 h2
      exact (DC.teardownPhase_count P regOk bounds _ hw).1 h1 h2
    · intro hw h1 h2
      exact (DC.teardownPhase_count P regOk bounds _ hw).2 h1 h2

/-- C3 witness: an expired pass on concrete nonempty states of both
drivers. -/
theorem C3_expired_pass_witness :
    (CB.cpu_boost_worker (CB.envAddDom (CB.envEmpty 2) 0 3000 [0])
        CB.kickT CB.okT CB.okT 40
        (CB.cpu_boost_max (CB.envAddDom (CB.envEmpty 2) 0 3000 [0]) 250 0
          100 CB.initState).1).1.active_max = ∅ ∧
    (DC.dcvs_boost_worker DC.presetsT DC.regOkT DC.boundsT 9
        { DC.initState with active := {DC.Hw.ddr}, registered := {DC.Hw.ddr} }).1.active = ∅ ∧
    DC.zeroVotesFor DC.Kind.kick DC.Hw.ddr
      (DC.teardownPhase DC.presetsT DC.regOkT DC.boundsT
        (DC.applyPhase DC.presetsT DC.regOkT DC.boundsT
          ({ DC.initState with active := {DC.Hw.ddr}, registered := {DC.Hw.ddr} } : DC.State).pending
          ({ DC.initState with active := {DC.Hw.ddr}, registered := {DC.Hw.ddr} } : DC.State).pending_max
          (DC.drain { DC.initState with active := {DC.Hw.ddr}, registered := {DC.Hw.ddr} }).2).1).2 = 1 := by
  refine ⟨?_, ?_, ?_⟩
  · exact (C3_expired_pass_removes_all.1 CB.kickT 250
      (CB.envAddDom (CB.envEmpty 2) 0 3000 [0]) _ [] CB.okT CB.okT 40
      (CB.Reachable.boostMax _ _ _ 0 100
        (CB.Reachable.addDom _ _ _ 0 3000 [0] (CB.Reachable.init 2)
          (by decide) (by decide)
          (fun c hc => ⟨rfl, List.not_mem_nil c⟩)))
      (by decide)).1
  · exact (C3_expired_pass_removes_all.2 DC.presetsT DC.regOkT DC.boundsT 9
      { DC.initState with active := {DC.Hw.ddr}, registered := {DC.Hw.ddr} } (by decide)).1
  · exact (C3_expired_pass_removes_all.2 DC.presetsT DC.regOkT DC.boundsT 9
      { DC.initState with active := {DC.Hw.ddr}, registered := {DC.Hw.ddr} } (by decide)).2.2.2.1 DC.Hw.ddr
      (by decide) (by decide)

namespace CB

/-- Along any steps after a removal of domain `D` in which no new
policy is created with leader `D`, no surviving policy names `D` and no
emitted constraint call references `D`'s request slots. -/
theorem stepsNoAdd_no_ref (k : KickCfg) (HZ D : Nat)
    (env : Env) (s : State) (env' : Env) (s' : State) (tr : List QosCall)
    (h : StepsNoAdd k HZ D env s env' s' tr) (h0 : avoids env D) :
    avoids env' D ∧ ∀ call ∈ tr, call.cpu ≠ D := by
  induction h with
  | refl => exact ⟨h0, by simp⟩
  | boostMax env2 s2 tr now d hsteps ih => exact ih
  | boostKick env2 s2 tr now d hsteps ih => exact ih
  | worker env2 s2 tr okM okK now hsteps ih =>
    obtain ⟨ha, hc⟩ := ih
    refine ⟨ha, ?_⟩
    intro call hcall
    rcases List.mem_append.mp hcall with hin | hin
    · exact hc call hin
    · have hel := worker_calls_eligible env2 k okM okK now s2 call hin
      obtain ⟨p, hp, hpc⟩ := (isLeaderB_iff env2 call.cpu).mp
        ((eligibleB_iff env2 call.cpu).mp hel).2
      intro hd
      exact ha call.cpu p hp (hpc.trans hd)
  | addDom env2 s2 tr L f members hsteps hL hmem hnd hfresh ih =>
    obtain ⟨ha, hc⟩ := ih
    refine ⟨?_, hc⟩
    intro c p hp
    unfold envAddDom at hp
    dsimp only at hp
    by_cases hcm : c ∈ members
    · rw [if_pos hcm] at hp
      cases hp
      exact hL
    · rw [if_neg hcm] at hp
      exact ha c p hp
  | removeDom env2 s2 tr L p hsteps hp hLp ih =>
    obtain ⟨ha, hc⟩ := ih
    refine ⟨?_, ?_⟩
    · intro c q hq
      unfold envRemove at hq
      dsimp only at hq
      cases hpol : env2.pol c with
      | none =>
        rw [hpol] at hq
        cases hq
      | some q2 =>
        rw [hpol] at hq
        dsimp only at hq
        by_cases hq2 : q2.cpu = L
        · rw [if_pos hq2] at hq
          cases hq
        · rw [if_neg hq2] at hq
          cases hq
          exact ha c q hpol
    · intro call hcall
      rcases List.mem_append.mp hcall with hin | hin
      · exact hc call hin
      · have hcpu : call.cpu = L := by
          rw [notifier_calls] at hin
          rcases List.mem_append.mp hin with h6 | h6 <;>
            split_ifs at h6 <;> simp_all [QosCall.cpu]
        rw [hcpu, ← hLp]
        exact ha L p hp
  
end CB

/-- C6: on a policy-removal event for domain `D`, the notifier
synchronously removes `D`'s handle exactly once per kind `D` was active
for, clears `D`'s active bits and clears `D`'s pending bits; and along
any subsequent driver steps in which no new policy is registered with
`D` as its leader, no constraint-API call references `D`'s request
slots. -/
theorem C6_removal_cleans_and_quiesces (k : CB.KickCfg) (HZ D : Nat)
    (env : CB.Env) (s : CB.State) :
    (CB.boost_policy_notifier D s).2.count (CB.QosCall.remMax D)
      = (if D ∈ s.active_max then 1 else 0) ∧
    (CB.boost_policy_notifier D s).2.count (CB.QosCall.remKick D)
      = (if D ∈ s.active_kick then 1 else 0) ∧
    D ∉ (CB.boost_policy_notifier D s).1.active_max ∧
    D ∉ (CB.boost_policy_notifier D s).1.active_kick ∧
    D ∉ (CB.boost_policy_notifier D s).1.pending_max ∧
    D ∉ (CB.boost_policy_notifier D s).1.pending_kick ∧
    (∀ (env' : CB.Env) (s' : CB.State) (tr : List CB.QosCall),
      CB.StepsNoAdd k HZ D (CB.envRemove env D)
        (CB.boost_policy_notifier D s).1 env' s' tr →
      ∀ call ∈ tr, CB.QosCall.cpu call ≠ D) := by
  have hns := CB.notifier_state D s
  refine ⟨?_, ?_, ?_, ?_, ?_, ?_, ?_⟩
  · rw [CB.notifier_calls, List.count_append]
    split_ifs <;> simp_all
  · rw [CB.notifier_calls, List.count_append]
    split_ifs <;> simp_all
  · rw [hns.1]
    exact Finset.not_mem_erase D s.active_max
  · rw [hns.2.1]
    exact Finset.not_mem_erase D s.active_kick
  · rw [hns.2.2.1]
    exact Finset.not_mem_erase D s.pending_max
  · rw [hns.2.2.2.1]
    exact Finset.not_mem_erase D s.pending_kick
  · intro env' s' tr hsteps
    exact (CB.stepsNoAdd_no_ref k HZ D (CB.envRemove env D)
      (CB.boost_policy_notifier D s).1 env' s' tr hsteps
      (CB.envRemove_avoids env D)).2

/-- C6 witness: the notifier on a state where domain 3 is active for
the max kind, followed by one worker step on the surviving
environment. -/
theorem C6_removal_witness :
    (CB.boost_policy_notifier 3
        { CB.initState with active_max := {3} }).2.count
      (CB.QosCall.remMax 3) = (if 3 ∈ ({3} : Finset Nat) then 1 else 0) ∧
    (∀ call ∈ ([] ++ (CB.cpu_boost_worker (CB.envRemove CB.envT 3)
        CB.kickT CB.okT CB.okT 0
        (CB.boost_policy_notifier 3
          { CB.initState with active_max := {3} }).1).2.1),
      CB.QosCall.cpu call ≠ 3) :=
  ⟨(C6_removal_cleans_and_quiesces CB.kickT 250 3 CB.envT
      { CB.initState with active_max := {3} }).1,
   (C6_removal_cleans_and_quiesces CB.kickT 250 3 CB.envT
      { CB.initState with active_max := {3} }).2.2.2.2.2.2 _ _ _
     (CB.StepsNoAdd.worker _ _ _ _ _ CB.okT CB.okT 0
       (CB.StepsNoAdd.refl _ _))⟩

/-- C7 (counterexample): `cpu_boost_all` does call into the constraint
API and does mutate its active set on the caller's thread — one online
leader, one call, one synchronous add, active set grown. -/
theorem C7_counterexample_cpu_boost_all :
    (CBA.cpu_boost_all CB.envT 250 CB.okT 0 50 CBA.initState).2.1 ≠ [] ∧
    (CBA.cpu_boost_all CB.envT 250 CB.okT 0 50 CBA.initState).1.active
      ≠ CBA.initState.active := by
  decide

/-- C7 (amended): `cpu_boost_max` and `cpu_boost_kick` mutate only the
boost window and their own pending set and schedule the reconciler
immediately, never touching the active sets (and their embedding emits
no constraint-API call); the older variant `cpu_boost_all` instead
applies the constraint request synchronously on the caller's thread —
on a machine whose single online CPU leads its policy it emits one add
(or update) call and mutates the active set directly. -/
theorem C7_request_calls_frame (env : CB.Env) (HZ now d : Nat)
    (s : CB.State) :
    (CB.cpu_boost_max env HZ now d s).1.active_max = s.active_max ∧
    (CB.cpu_boost_max env HZ now d s).1.active_kick = s.active_kick ∧
    (CB.cpu_boost_max env HZ now d s).1.pending_kick = s.pending_kick ∧
    (CB.cpu_boost_max env HZ now d s).1.pending_max
      = Finset.range env.nrCpus ∧
    (CB.cpu_boost_max env HZ now d s).2 = some 0 ∧
    (CB.cpu_boost_kick env HZ now d s).1.active_max = s.active_max ∧
    (CB.cpu_boost_kick env HZ now d s).1.active_kick = s.active_kick ∧
    (CB.cpu_boost_kick env HZ now d s).1.pending_max = s.pending_max ∧
    (CB.cpu_boost_kick env HZ now d s).1.pending_kick
      = Finset.range env.nrCpus ∧
    (CB.cpu_boost_kick env HZ now d s).2 = some 0 ∧
    (∀ (okA : Nat → Bool) (p : CB.Policy) (c n : Nat) (sa : CBA.State),
      p.cpu = c → okA c = true → c ∉ sa.active →
      (CBA.cpu_boost_all
          ⟨n, [c], fun x => if x = c then some p else none⟩
          HZ okA now d sa).2.1 = [CBA.Call.add c p.maxFreq true] ∧
      (CBA.cpu_boost_all
          ⟨n, [c], fun x => if x = c then some p else none⟩
          HZ okA now d sa).1.active = insert c sa.active) := by
  refine ⟨rfl, rfl, rfl, rfl, rfl, rfl, rfl, rfl, rfl, rfl, ?_⟩
  intro okA p c n sa hpc hok hna
  unfold CBA.cpu_boost_all
  dsimp only
  rw [List.foldl_cons, List.foldl_nil]
  unfold CBA.applyOne
  dsimp only
  rw [if_pos rfl]
  dsimp only
  rw [if_pos hpc]
  rw [if_pos hna, if_pos hok]
  exact ⟨rfl, rfl⟩

/-- C7 witness: the amended statement on concrete inputs. -/
theorem C7_request_calls_frame_witness :
    (CB.cpu_boost_max CB.envT 250 4 30 CB.initState).1.active_max
      = CB.initState.active_max ∧
    (CBA.cpu_boost_all ⟨2, [0], fun x => if x = 0 then
        some ⟨0, 3000⟩ else none⟩ 250 CB.okT 4 30 CBA.initState).2.1
      = [CBA.Call.add 0 3000 true] :=
  ⟨(C7_request_calls_frame CB.envT 250 4 30 CB.initState).1,
   ((C7_request_calls_frame CB.envT 250 4 30 CB.initState).2.2.2.2.2.2.2.2.2.2
      CB.okT ⟨0, 3000⟩ 0 2 CBA.initState rfl rfl
      (Finset.not_mem_empty 0)).1⟩
